import Mathlib

set_option maxHeartbeats 1000000
set_option maxRecDepth 100000

/-!
Shallow embedding of the SNMP library's ASN.1 BER codec and message layer
(`BER.h`, `SNMPMessage.h`), in the default `SNMP_STREAM = 1` configuration:
a stream is a `List Nat` of byte values, `Stream::write` truncation is `% 256`,
and C++ `unsigned int` / `uint32_t` arithmetic is `Nat` arithmetic `% 2^32`.
Fallible reads return `Option`; a C++ path that dereferences null, underflows
an unsigned loop counter or spins forever is modelled as `none`.
-/

/-- Byte-count loop `while (type >>= 8) ++_size` shared by `Type::setType` and
`Length::setLength` (structural fuel recursion; `bytesOf` supplies enough
fuel, see `bytesOf_eq`). -/
def bytesOfAux : Nat → Nat → Nat
  | 0, _ => 1
  | fuel + 1, n => if n < 256 then 1 else bytesOfAux fuel (n / 256) + 1

/-- Number of base-256 digits of `n`, at least 1. -/
def bytesOf (n : Nat) : Nat := bytesOfAux n n

theorem bytesOfAux_irrel : ∀ f g n, n ≤ f → n ≤ g → bytesOfAux f n = bytesOfAux g n := by
  intro f
  induction f with
  | zero =>
    intro g n hf _
    interval_cases n
    cases g <;> simp [bytesOfAux]
  | succ f ih =>
    intro g n hf hg
    cases g with
    | zero =>
      interval_cases n
      simp [bytesOfAux]
    | succ g =>
      simp only [bytesOfAux]
      by_cases h : n < 256
      · simp [h]
      · have hd : n / 256 ≤ f := by omega
        have hd' : n / 256 ≤ g := by omega
        simp [h, ih g (n / 256) hd hd']

theorem bytesOf_eq (n : Nat) : bytesOf n = if n < 256 then 1 else bytesOf (n / 256) + 1 := by
  by_cases h : n < 256
  · unfold bytesOf
    cases hn : n with
    | zero => simp [bytesOfAux]
    | succ m => simp [bytesOfAux, hn ▸ h]
  · unfold bytesOf
    cases hn : n with
    | zero => omega
    | succ m =>
      simp only [bytesOfAux, if_neg (hn ▸ h), if_neg h]
      have : (m + 1) / 256 ≤ m := by omega
      rw [bytesOfAux_irrel m ((m + 1) / 256) ((m + 1) / 256) this (le_refl _)]

/-- Group-count loop `do { ++_size } while (tag >>= 7)` of `Type::setFlagTag`
and of the OID sub-identifier encoder (structural fuel recursion). -/
def groups7Aux : Nat → Nat → Nat
  | 0, _ => 1
  | fuel + 1, n => if n < 128 then 1 else groups7Aux fuel (n / 128) + 1

/-- Number of base-128 digits of `n`, at least 1. -/
def groups7 (n : Nat) : Nat := groups7Aux n n

theorem groups7Aux_irrel : ∀ f g n, n ≤ f → n ≤ g → groups7Aux f n = groups7Aux g n := by
  intro f
  induction f with
  | zero =>
    intro g n hf _
    interval_cases n
    cases g <;> simp [groups7Aux]
  | succ f ih =>
    intro g n hf hg
    cases g with
    | zero =>
      interval_cases n
      simp [groups7Aux]
    | succ g =>
      simp only [groups7Aux]
      by_cases h : n < 128
      · simp [h]
      · have hd : n / 128 ≤ f := by omega
        have hd' : n / 128 ≤ g := by omega
        simp [h, ih g (n / 128) hd hd']

theorem groups7_eq (n : Nat) : groups7 n = if n < 128 then 1 else groups7 (n / 128) + 1 := by
  by_cases h : n < 128
  · unfold groups7
    cases hn : n with
    | zero => simp [groups7Aux]
    | succ m => simp [groups7Aux, hn ▸ h]
  · unfold groups7
    cases hn : n with
    | zero => omega
    | succ m =>
      simp only [groups7Aux, if_neg (hn ▸ h), if_neg h]
      have : (m + 1) / 128 ≤ m := by omega
      rw [groups7Aux_irrel m ((m + 1) / 128) ((m + 1) / 128) this (le_refl _)]

/-- `Base::encode7bits` (stream variant): `size` bytes, 7 bits of `value` per
byte MSB-first, continuation bit 0x80 on every byte but the last. -/
def encode7bits (value size : Nat) : List Nat :=
  (List.range size).map fun index =>
    ((value >>> (7 * (size - index - 1))) &&& 0x7F) |||
      (if size - index - 1 ≠ 0 then 0x80 else 0)

/-- Big-endian accumulation `_length <<= 8; _length += stream.read()` over a
fixed number of bytes, in C++ `unsigned int` (modulo 2^32) arithmetic. -/
def readBE32 : Nat → Nat → List Nat → Option (Nat × List Nat)
  | 0, acc, bytes => some (acc, bytes)
  | _ + 1, _, [] => none
  | count + 1, acc, b :: rest =>
      readBE32 count ((((acc <<< 8) % 4294967296) + b) % 4294967296) rest

/-- Big-endian accumulation `*value <<= 8; *value |= byte` of
`BER::decodeNumeric<T>`, modulo `2 ^ width` (width 32 or 64). -/
def readBEOr (width : Nat) : Nat → Nat → List Nat → Option (Nat × List Nat)
  | 0, acc, bytes => some (acc, bytes)
  | _ + 1, _, [] => none
  | count + 1, acc, b :: rest =>
      readBEOr width count ((((acc <<< 8) % 2 ^ width) ||| b % 256) % 2 ^ width) rest

/-! ### Length codec (`class Length`) -/

/-- A decoded or computed BER length: the value `_length` and the cached
encoded size `_size` of the length field. -/
structure Len where
  length : Nat
  size : Nat
deriving DecidableEq

/-- `Length::setLength`: stores the value; `_size` is 1 for values ≤ 0x7F and
`1 + bytesOf length` otherwise. -/
def setLength (length : Nat) : Len :=
  ⟨length, if length > 0x7F then 1 + bytesOf length else 1⟩

/-- `Length::encode` (stream variant): the short form writes the value as one
byte; the long form writes `0x80 | _size` followed by `_size` big-endian bytes
of the value. -/
def lengthEncode (l : Len) : List Nat :=
  if l.length > 0x7F then
    ((0x80 ||| l.size) % 256) ::
      (List.range l.size).map (fun index => (l.length >>> ((l.size - index - 1) * 8)) % 256)
  else [l.length % 256]

/-- `Length::decode` (stream variant): a set high bit selects the long form
with `N = low 7 bits` value bytes (`_size` ends at `N + 1`); otherwise the
byte itself is the length. -/
def lengthDecode : List Nat → Option (Len × List Nat)
  | [] => none
  | b :: rest =>
    if b &&& 0x80 ≠ 0 then
      match readBE32 (b &&& 0x7F) 0 rest with
      | some (value, rest') => some (⟨value, (b &&& 0x7F) + 1⟩, rest')
      | none => none
    else some (⟨b, 1⟩, rest)

/-! ### Type codec (`class Type`) -/

/-- A BER type: class bits, form bit, tag number, cached encoded size and the
raw composite `_type` value. -/
structure Ty where
  cls : Nat
  form : Nat
  tag : Nat
  size : Nat
  typeVal : Nat
deriving DecidableEq

/-- The `_tag`/`_type` loop of `Type::setType`: `count` iterations of
`_tag = (_tag << 7) | (type & 0x7F); type >>= 8` in `unsigned int`
arithmetic; returns the final `(_tag, type)`. -/
def setTypeLoop : Nat → Nat → Nat → Nat × Nat
  | 0, tg, tp => (tg, tp)
  | count + 1, tg, tp =>
      setTypeLoop count (((tg <<< 7) % 4294967296) ||| (tp &&& 0x7F)) (tp >>> 8)

/-- `Type::setType`: size is the byte count of the raw type value; for
multi-byte types the tag is reassembled by `setTypeLoop` and the class/form
bits come from the top byte. -/
def setType (type : Nat) : Ty :=
  let size := bytesOf type
  if size = 1 then ⟨type &&& 0xC0, type &&& 0x20, type &&& 0x1F, 1, type⟩
  else
    let r := setTypeLoop (size - 1) 0 type
    ⟨r.2 &&& 0xC0, r.2 &&& 0x20, r.1, size, type⟩

/-- The `_type` rebuilding loop of `Type::setFlagTag` (note the source shifts
`tag` by `index << 3`, i.e. multiples of 8, when assembling `_type`): `index`
counts down from `size - 2`. -/
def setFlagTagTypeLoop (tag : Nat) : Nat → Nat → Nat
  | tv, 0 => ((tv <<< 8) % 4294967296) ||| ((tag >>> 0) &&& 0x7F)
  | tv, index + 1 =>
      setFlagTagTypeLoop tag
        (((((tv <<< 8) % 4294967296) ||| ((tag >>> ((index + 1) * 8)) &&& 0x7F)) ||| 0x80) % 4294967296)
        index

/-- `Type::setFlagTag`: class and form from the flag byte; short form when
`tag < 0x1F`, otherwise `1 + groups7 tag` encoded bytes. -/
def setFlagTag (flag tag : Nat) : Ty :=
  if tag < 0x1F then
    ⟨flag &&& 0xC0, flag &&& 0x20, tag, 1, ((flag &&& 0xC0) ||| (flag &&& 0x20)) ||| tag⟩
  else
    let size := 1 + groups7 tag
    ⟨flag &&& 0xC0, flag &&& 0x20, tag, size,
      setFlagTagTypeLoop tag (((flag &&& 0xC0) ||| (flag &&& 0x20)) ||| 0x1F) (size - 2)⟩

/-- `Type::encode` (stream variant): one byte `class|form|tag` in the short
form, else `class|form|0x1F` followed by the 7-bit groups of the tag. -/
def tyEncode (t : Ty) : List Nat :=
  if t.size = 1 then [((t.cls ||| t.form) ||| t.tag) % 256]
  else (((t.cls ||| t.form) ||| 0x1F) % 256) :: encode7bits t.tag (t.size - 1)

/-- The long-form loop of `Type::decode`:
`do { _size++; _type = _type << 8 | b; _tag = _tag << 7 | (_type & 0x7F) }
while (_type & 0x80)`, in `unsigned int` arithmetic. -/
def tyDecodeLoop : Nat → Nat → Nat → List Nat → Option (Nat × Nat × Nat × List Nat)
  | _, _, _, [] => none
  | size, tv, tg, b :: rest =>
      let tv' := (((tv <<< 8) % 4294967296) ||| b) % 4294967296
      let tg' := ((tg <<< 7) % 4294967296) ||| (tv' &&& 0x7F)
      if tv' &&& 0x80 ≠ 0 then tyDecodeLoop (size + 1) tv' tg' rest
      else some (size + 1, tv', tg', rest)

/-- `Type::decode` (stream variant): class, form and tag from the first byte;
a low-five-bits value of 0x1F continues into the long-form loop. -/
def tyDecode : List Nat → Option (Ty × List Nat)
  | [] => none
  | b :: rest =>
    if b &&& 0x1F = 0x1F then
      match tyDecodeLoop 1 b 0 rest with
      | some (size, tv, tg, rest') => some (⟨b &&& 0xC0, b &&& 0x20, tg, size, tv⟩, rest')
      | none => none
    else some (⟨b &&& 0xC0, b &&& 0x20, b &&& 0x1F, 1, b⟩, rest)

/-! ### Error status mapping (`Message::mapErrorStatus`, `Message::setError`) -/

/-- `Message::mapErrorStatus`: when `_version == Version::V1` (0), rewrite the
v2c-only error codes per RFC 2089 §2.1; otherwise return the status
unchanged. Codes: WrongValue 10, WrongEncoding 9, WrongType 7, WrongLength 8,
InconsistentValue 12 → BadValue 3; NoAccess 6, NotWritable 17, NoCreation 11,
InconsistentName 18, AuthorizationError 16 → NoSuchName 2;
ResourceUnavailable 13, CommitFailed 14, UndoFailed 15 → GenErr 5. -/
def mapErrorStatus (version status : Nat) : Nat :=
  if version = 0 then
    if status = 10 ∨ status = 9 ∨ status = 7 ∨ status = 8 ∨ status = 12 then 3
    else if status = 6 ∨ status = 17 ∨ status = 11 ∨ status = 18 ∨ status = 16 then 2
    else if status = 13 ∨ status = 14 ∨ status = 15 then 5
    else status
  else status

/-- `Message::setError`: stores `(mapErrorStatus(status), index)` into the
generic PDU's error struct. -/
def setError (version status index : Nat) : Nat × Nat :=
  (mapErrorStatus version status, index)

/-- Modelled from the spec: the RFC 2089 §2.1 rewrite table exactly as the
claim words it ({WrongValue, WrongEncoding, WrongType, WrongLength,
InconsistentValue} → BadValue; {NoAccess, NotWritable, NoCreation,
InconsistentName, AuthorizationError} → NoSuchName; {ResourceUnavailable,
CommitFailed, UndoFailed} → GenErr; all other codes pass through). -/
def specErrorRewrite (status : Nat) : Nat :=
  if status = 10 ∨ status = 9 ∨ status = 7 ∨ status = 8 ∨ status = 12 then 3
  else if status = 6 ∨ status = 17 ∨ status = 11 ∨ status = 18 ∨ status = 16 then 2
  else if status = 13 ∨ status = 14 ∨ status = 15 then 5
  else status

theorem mapErrorStatus_eq_spec : ∀ status : Nat, status < 256 →
    mapErrorStatus 0 status = specErrorRewrite status := by
  decide

/-! ### Claim theorems (first batch) -/

/-- C5: setting any error status on a V1 message stores the RFC 2089 rewrite:
WrongValue, WrongEncoding, WrongType, WrongLength, InconsistentValue become
BadValue; NoAccess, NotWritable, NoCreation, InconsistentName,
AuthorizationError become NoSuchName; ResourceUnavailable, CommitFailed,
UndoFailed become GenErr; every other code is stored unchanged. -/
theorem setError_v1_rfc2089 (status index : Nat) (h : status < 256) :
    setError 0 status index = (specErrorRewrite status, index) := by
  unfold setError
  rw [mapErrorStatus_eq_spec status h]

theorem setError_v1_rfc2089_witness :
    10 < 256 ∧ setError 0 10 1 = (specErrorRewrite 10, 1) :=
  ⟨by decide, setError_v1_rfc2089 10 1 (by decide)⟩

/-- C3 (counter-evidence): at length 128 `Length::encode` emits
`82 00 80` — the long-form indicator claims `N = 2` value bytes and a
redundant leading 0x00 is included — instead of the minimal `81 80` the
claim requires. -/
theorem lengthEncode_128_not_minimal :
    lengthEncode (setLength 128) = [0x82, 0x00, 0x80] ∧
      lengthEncode (setLength 128) ≠ [0x81, 0x80] := by
  constructor
  · decide
  · decide

/-- C7 (counterexample): decoding the indefinite-form byte 0x80 does not
fail; the length codec accepts it and yields the length value 0. -/
theorem lengthDecode_indefinite_counterexample :
    lengthDecode [0x80] = some (⟨0, 1⟩, []) := by decide

/-- C7 (amended): for every input starting with the byte 0x80, length
decoding succeeds, consuming exactly that byte and producing the length
value 0 (long form with zero value bytes); no MalformedLength error exists
in the code. -/
theorem lengthDecode_indefinite (rest : List Nat) :
    lengthDecode (0x80 :: rest) = some (⟨0, 1⟩, rest) := rfl

/-! ### Numeric payload lengths (`BER::setPositive`, `BER::setNegative`) -/

/-- `BER::setPositive<T>` loop
`do { carry = value & 0x80; value >>= 8; length++ } while (value | carry)`
(structural fuel recursion; `setPositiveLen` supplies enough fuel). -/
def setPositiveLenAux : Nat → Nat → Nat
  | 0, _ => 1
  | fuel + 1, value =>
      if (value >>> 8) ||| (value &&& 0x80) = 0 then 1
      else 1 + setPositiveLenAux fuel (value >>> 8)

/-- Byte length of an unsigned (or non-negative signed) value: minimal count
of base-256 digits, plus a leading 0x00 byte when the top bit of the most
significant digit is set. -/
def setPositiveLen (value : Nat) : Nat := setPositiveLenAux value value

theorem setPositiveLenAux_irrel :
    ∀ f g n, n ≤ f → n ≤ g → setPositiveLenAux f n = setPositiveLenAux g n := by
  intro f
  induction f with
  | zero =>
    intro g n hf _
    interval_cases n
    cases g <;> simp [setPositiveLenAux]
  | succ f ih =>
    intro g n hf hg
    have hsr : n >>> 8 = n / 256 := Nat.shiftRight_eq_div_pow n 8
    cases g with
    | zero =>
      interval_cases n
      simp [setPositiveLenAux]
    | succ g =>
      simp only [setPositiveLenAux]
      by_cases h : (n >>> 8) ||| (n &&& 0x80) = 0
      · simp [h]
      · have hd : n >>> 8 ≤ f := by rw [hsr]; omega
        have hd' : n >>> 8 ≤ g := by rw [hsr]; omega
        simp [h, ih g (n >>> 8) hd hd']

theorem setPositiveLen_eq (n : Nat) :
    setPositiveLen n =
      if (n >>> 8) ||| (n &&& 0x80) = 0 then 1 else 1 + setPositiveLen (n >>> 8) := by
  have hsr : n >>> 8 = n / 256 := Nat.shiftRight_eq_div_pow n 8
  by_cases h : (n >>> 8) ||| (n &&& 0x80) = 0
  · unfold setPositiveLen
    cases hn : n with
    | zero => simp [setPositiveLenAux]
    | succ m => simp [setPositiveLenAux, hn ▸ h]
  · unfold setPositiveLen
    cases hn : n with
    | zero =>
      exfalso
      apply h
      rw [hn]
      decide
    | succ m =>
      simp only [setPositiveLenAux, if_neg (hn ▸ h), if_neg h]
      have hle : (m + 1) >>> 8 ≤ m := by
        rw [Nat.shiftRight_eq_div_pow]
        omega
      rw [setPositiveLenAux_irrel m ((m + 1) >>> 8) ((m + 1) >>> 8) hle (le_refl _)]

/-- Arithmetic (sign-extending) right shift of an `int32` bit pattern
`p < 2^32` by `k ≤ 32` bits: C++ `value >> k` on a negative `int32_t`. -/
def asr32 (p k : Nat) : Nat :=
  if p &&& 0x80000000 = 0 then p >>> k
  else (p >>> k) ||| ((2 ^ k - 1) <<< (32 - k))

/-- `IntegerBER::setValue`: the payload length of an `int32` value with bit
pattern `p`, via `BER::setNegative` (the `word & 0xFF80` scan from length 4
down) when negative and `BER::setPositive` otherwise. -/
def intLen (p : Nat) : Nat :=
  if p &&& 0x80000000 = 0 then setPositiveLen p
  else if asr32 p 16 &&& 0xFF80 ≠ 0xFF80 then 4
  else if asr32 p 8 &&& 0xFF80 ≠ 0xFF80 then 3
  else if p &&& 0xFF80 ≠ 0xFF80 then 2
  else 1

/-- `BER::encodeNumeric<T>` value bytes for an unsigned value: `len` bytes,
big-endian (`stream.write(value >> ((_length - index - 1) << 3))`; a C++
shift past the type width, undefined behaviour used here only to emit the
explicit leading 0x00 byte, is modelled as the intended 0). -/
def bePayload (value len : Nat) : List Nat :=
  (List.range len).map fun index => (value >>> ((len - index - 1) * 8)) % 256

/-- `BER::encodeNumeric<int32_t>` value bytes: big-endian bytes of the
arithmetically shifted pattern. -/
def intPayload (p len : Nat) : List Nat :=
  (List.range len).map fun index => asr32 p ((len - index - 1) * 8) % 256

/-! ### Object identifier payload (`ObjectIdentifierBER`) -/

/-- `ObjectIdentifierBER::setValue` length scan over the dotted-decimal
components: components 0 and 1 collapse into one byte; each later component
contributes its base-128 digit count. A list with fewer than two components
contributes nothing (the loop never reaches `case 1`). -/
def oidLen : List Nat → Nat
  | _ :: _ :: rest => 1 + (rest.map groups7).sum
  | _ => 0

/-- `ObjectIdentifierBER::encode` value bytes (stream variant): the byte
`40·a + b` (truncated by `Stream::write`), then the MSB-first 7-bit groups,
continuation bits set, of each later component. -/
def oidPayload : List Nat → List Nat
  | a :: b :: rest => ((40 * a + b) % 256) :: rest.flatMap (fun s => encode7bits s (groups7 s))
  | _ => []

/-! ### The BER object tree -/

/-- One BER object in its refreshed state (`getSize(true)` already taken):
each concrete `BER` subclass of the source is one constructor. Numeric values
are kept as their bit patterns (`integer` is the `int32` two's-complement
pattern, `floatV`/`opaqueFloat` the IEEE-754 single bit pattern). `nullTag`
covers `NullBER` and its context-tagged subclasses via the stored tag, `seq`
covers `SequenceBER` (and `VarBind`/`VarBindList`/PDU sequences) via the
stored tag, `opaqueW` is `OpaqueBER` with its single embedded object. -/
inductive Obj where
  | boolean (value : Bool)
  | integer (value : Nat)
  | octetString (value : List Nat)
  | nullTag (type : Nat)
  | oid (value : List Nat)
  | ipAddress (value : List Nat)
  | counter32 (value : Nat)
  | gauge32 (value : Nat)
  | timeTicks (value : Nat)
  | counter64 (value : Nat)
  | floatV (value : Nat)
  | opaqueFloat (value : Nat)
  | opaqueW (inner : Obj)
  | seq (type : Nat) (children : List Obj)

/-- The `_type` value each subclass constructor passes to `BER(type)`. -/
def tagOf : Obj → Nat
  | .boolean _ => 0x01
  | .integer _ => 0x02
  | .octetString _ => 0x04
  | .nullTag t => t
  | .oid _ => 0x06
  | .ipAddress _ => 0x40
  | .counter32 _ => 0x41
  | .gauge32 _ => 0x42
  | .timeTicks _ => 0x43
  | .counter64 _ => 0x46
  | .floatV _ => 0x48
  | .opaqueFloat _ => 0x9F78
  | .opaqueW _ => 0x44
  | .seq t _ => t

mutual
/-- The cached `_length` of each object in its refreshed state: fixed for
Boolean/Null/IPAddress/Float, value-derived for the numeric types and OIDs,
the embedded object's `getSize` for Opaque, and the summed child sizes for
the array types (`ArrayBER::getSize(true)`). -/
def objLength : Obj → Nat
  | .boolean _ => 1
  | .integer p => intLen p
  | .octetString s => s.length
  | .nullTag _ => 0
  | .oid s => oidLen s
  | .ipAddress _ => 4
  | .counter32 v => setPositiveLen v
  | .gauge32 v => setPositiveLen v
  | .timeTicks v => setPositiveLen v
  | .counter64 v => setPositiveLen v
  | .floatV _ => 4
  | .opaqueFloat _ => 4
  | .opaqueW inner =>
      (setType (tagOf inner)).size + (setLength (objLength inner)).size + objLength inner
  | .seq _ children => objListLength children

/-- `ArrayBER::getSize(true)` accumulation: the sum of the children's sizes. -/
def objListLength : List Obj → Nat
  | [] => 0
  | c :: cs =>
      ((setType (tagOf c)).size + (setLength (objLength c)).size + objLength c) + objListLength cs
end

/-- `BER::getSize`: `_type._size + _length._size + _length` in the refreshed
state. -/
def objSize (o : Obj) : Nat :=
  (setType (tagOf o)).size + (setLength (objLength o)).size + objLength o

theorem objLength_opaqueW (inner : Obj) : objLength (.opaqueW inner) = objSize inner := rfl

theorem objListLength_cons (c : Obj) (cs : List Obj) :
    objListLength (c :: cs) = objSize c + objListLength cs := rfl

mutual
/-- `encode` (stream variant) of each BER subclass: the inherited
`BER::encode` writes type then length, then the subclass writes its value
bytes; array types write each child in order, Opaque writes the embedded
object. -/
def objEncode : Obj → List Nat
  | .boolean v =>
      tyEncode (setType 0x01) ++ lengthEncode (setLength 1) ++ [if v then 0xFF else 0x00]
  | .integer p =>
      tyEncode (setType 0x02) ++ lengthEncode (setLength (intLen p)) ++ intPayload p (intLen p)
  | .octetString s => tyEncode (setType 0x04) ++ lengthEncode (setLength s.length) ++ s
  | .nullTag t => tyEncode (setType t) ++ lengthEncode (setLength 0)
  | .oid s => tyEncode (setType 0x06) ++ lengthEncode (setLength (oidLen s)) ++ oidPayload s
  | .ipAddress s => tyEncode (setType 0x40) ++ lengthEncode (setLength 4) ++ s
  | .counter32 v =>
      tyEncode (setType 0x41) ++ lengthEncode (setLength (setPositiveLen v)) ++
        bePayload v (setPositiveLen v)
  | .gauge32 v =>
      tyEncode (setType 0x42) ++ lengthEncode (setLength (setPositiveLen v)) ++
        bePayload v (setPositiveLen v)
  | .timeTicks v =>
      tyEncode (setType 0x43) ++ lengthEncode (setLength (setPositiveLen v)) ++
        bePayload v (setPositiveLen v)
  | .counter64 v =>
      tyEncode (setType 0x46) ++ lengthEncode (setLength (setPositiveLen v)) ++
        bePayload v (setPositiveLen v)
  | .floatV p => tyEncode (setType 0x48) ++ lengthEncode (setLength 4) ++ bePayload p 4
  | .opaqueFloat p => tyEncode (setType 0x9F78) ++ lengthEncode (setLength 4) ++ bePayload p 4
  | .opaqueW inner =>
      tyEncode (setType 0x44) ++
        lengthEncode (setLength
          ((setType (tagOf inner)).size + (setLength (objLength inner)).size + objLength inner)) ++
        objEncode inner
  | .seq t cs => tyEncode (setType t) ++ lengthEncode (setLength (objListLength cs)) ++ objEncodeList cs

/-- `ArrayBER::encode` child loop: each child in order. -/
def objEncodeList : List Obj → List Nat
  | [] => []
  | c :: cs => objEncode c ++ objEncodeList cs
end

/-! ### Claim theorems: size accuracy (C2), fixed-capacity add (C9),
NUL-terminated octet strings (C10) -/

/-- C2 (failing input): for an OctetString of 128 payload bytes,
`getSize(true)` reports 131 (1 type byte + a 2-byte length field + 128),
but the encode emits 132 bytes: `Length::encode` writes `0x80 | _size`
followed by `_size` value bytes, one more byte than the `_size` it cached.
The claim that the emitted byte count equals the reported size fails for
every BER object with a payload length above 127. -/
theorem getSize_encode_mismatch_at_128 :
    objSize (Obj.octetString (List.replicate 128 0x41)) = 131 ∧
      (objEncode (Obj.octetString (List.replicate 128 0x41))).length = 132 := by
  constructor
  · decide
  · decide

/-- An `ArrayBER<U>` as mutated by `add`: the stored children and the cached
`_length`. -/
structure ArrMem where
  bers : List Obj
  length : Nat

/-- `ArrayBER::add` (fixed-capacity path, the default `SNMP_VECTOR = 0`):
appends the object and adds its size to the cached length only when
`_count < U`; otherwise nothing is stored and no error is reported (the
object is still returned to the caller). -/
def arrayAdd (U : Nat) (s : ArrMem) (ber : Obj) : ArrMem :=
  if s.bers.length < U then ⟨s.bers ++ [ber], s.length + objSize ber⟩ else s

/-- C9: adding to a fixed-capacity constructed BER that already holds the
configured maximum number of children leaves the child count, the cached
length and every stored child unchanged, and reports no error. -/
theorem arrayAdd_at_capacity (U : Nat) (s : ArrMem) (ber : Obj)
    (h : s.bers.length = U) : arrayAdd U s ber = s := by
  simp [arrayAdd, h]

/-- A `SequenceBER` (capacity `SNMP_CAPACITY = 6`) already holding six
children. -/
def fullSequence : ArrMem :=
  ⟨[.nullTag 5, .nullTag 5, .nullTag 5, .nullTag 5, .nullTag 5, .nullTag 5], 12⟩

theorem arrayAdd_at_capacity_witness :
    fullSequence.bers.length = 6 ∧ arrayAdd 6 fullSequence (.nullTag 5) = fullSequence :=
  ⟨by decide, arrayAdd_at_capacity 6 fullSequence (.nullTag 5) (by decide)⟩

/-- `OctetStringBER::allocate`: frees the old array, `malloc`s `_length + 1`
cells (contents arbitrary, given by `junk`) and sets the final cell to 0. -/
def octetAllocate (junk : Nat → Nat) (length : Nat) : List Nat :=
  (List.range length).map junk ++ [0]

/-- A `memcpy(dst, src, count)` over list-modelled buffers. -/
def memcpyList (dst src : List Nat) (count : Nat) : List Nat :=
  src.take count ++ dst.drop count

/-- `OctetStringBER::setValue(value, length)`: sets `_length`, reallocates,
and copies `length` bytes of `value` into the fresh buffer. -/
def octetSetValue (junk : Nat → Nat) (value : List Nat) (length : Nat) : List Nat :=
  memcpyList (octetAllocate junk length) value length

/-- `OctetStringBER::decode` (stream variant) buffer effect: after
`BER::decode` reads `_length`, `allocate()` then
`stream.readBytes(_value, _length)` copies the payload into the buffer. -/
def octetDecodeBuffer (junk : Nat → Nat) (payload : List Nat) : List Nat :=
  memcpyList (octetAllocate junk payload.length) payload payload.length

/-- C10: after `setValue` with an L-byte value, or a decode of an L-byte
payload, the owned buffer holds exactly those L bytes followed by a
terminating 0x00 — `getValue` is always NUL-terminated. -/
theorem octetString_buffer_nul_terminated (junk : Nat → Nat) (value : List Nat) :
    octetSetValue junk value value.length = value ++ [0] ∧
      octetDecodeBuffer junk value = value ++ [0] := by
  have h : ∀ j : Nat → Nat, memcpyList (octetAllocate j value.length) value value.length
      = value ++ [0] := by
    intro j
    unfold memcpyList octetAllocate
    rw [List.take_of_length_le (le_refl _)]
    congr 1
    rw [List.drop_append_of_le_length (by simp)]
    simp
  exact ⟨h junk, h junk⟩

/-! ### Message building (`Message::build`) -/

/-- A user-constructed `Message`: the fields of `Message` and its `PDU`
union (the union overlay is not modelled; each PDU kind reads only its own
fields, as the source's `@warning` comments demand). `community` is the byte
string `_community` points at, `requestID` is the `uint32` pattern, the OID
and address values are in decoded form (dotted components, address bytes). -/
structure Msg where
  version : Nat
  community : List Nat
  type : Nat
  requestID : Nat
  errorStatus : Nat
  errorIndex : Nat
  nonRepeaters : Nat
  maxRepetitions : Nat
  trapEnterprise : List Nat
  trapAgentAddr : List Nat
  trapGenericTrap : Nat
  trapSpecificTrap : Nat
  trapTimeStamp : Nat
  varBindList : List (List Nat × Obj)

/-- A `VarBind`: a Sequence holding the OID and the value. -/
def varBindObj (vb : List Nat × Obj) : Obj := .seq 0x30 [.oid vb.1, vb.2]

/-- The `VarBindList`: a Sequence of VarBinds in insertion order. -/
def varBindListObj (vbs : List (List Nat × Obj)) : Obj := .seq 0x30 (vbs.map varBindObj)

/-- The inner PDU `Message::build` assembles: a Sequence tagged `_type`.
Trap (0xA4) gets enterprise, agent address, generic and specific trap codes
and `TimeTicksBER(millis() / 10)` — `now` is that clock value, the stored
`_timeStamp` is not used; GetBulkRequest (0xA5) gets request-id,
non-repeaters, max-repetitions; every other type gets request-id,
error-status, error-index. The variable bindings list is appended last. -/
def buildPdu (m : Msg) (now : Nat) : Obj :=
  if m.type = 0xA4 then
    .seq m.type [.oid m.trapEnterprise, .ipAddress m.trapAgentAddr,
      .integer m.trapGenericTrap, .integer m.trapSpecificTrap, .timeTicks now,
      varBindListObj m.varBindList]
  else if m.type = 0xA5 then
    .seq m.type [.integer m.requestID, .integer m.nonRepeaters, .integer m.maxRepetitions,
      varBindListObj m.varBindList]
  else
    .seq m.type [.integer m.requestID, .integer m.errorStatus, .integer m.errorIndex,
      varBindListObj m.varBindList]

/-- The outer Sequence `Message::build` leaves in the `Message` itself:
version, community, pdu. -/
def buildObj (m : Msg) (now : Nat) : Obj :=
  .seq 0x30 [.integer m.version, .octetString m.community, buildPdu m now]

/-- `Message::build(Stream&)` on a fresh message: build, then encode. -/
def buildBytes (m : Msg) (now : Nat) : List Nat := objEncode (buildObj m now)

/-- The specific GetRequest of the scenario: version V2C, community
"public", request-id 1, one VarBind for 1.3.6.1.2.1.1.5.0 with a Null
value. -/
def msgGetRequest : Msg :=
  { version := 1, community := [0x70, 0x75, 0x62, 0x6C, 0x69, 0x63],
    type := 0xA0, requestID := 1, errorStatus := 0, errorIndex := 0,
    nonRepeaters := 0, maxRepetitions := 0,
    trapEnterprise := [], trapAgentAddr := [], trapGenericTrap := 0,
    trapSpecificTrap := 0, trapTimeStamp := 0,
    varBindList := [([1, 3, 6, 1, 2, 1, 1, 5, 0], .nullTag 5)] }

/-- The byte sequence the claim expects (reading the quoted "public" as its
six ASCII bytes). -/
def claimedGetRequestBytes : List Nat :=
  [0x30, 0x1D, 0x02, 0x01, 0x01, 0x04, 0x06, 0x70, 0x75, 0x62, 0x6C, 0x69, 0x63,
   0xA0, 0x10, 0x02, 0x01, 0x01, 0x02, 0x01, 0x00, 0x02, 0x01, 0x00,
   0x30, 0x0B, 0x30, 0x09, 0x06, 0x05, 0x2B, 0x06, 0x01, 0x02, 0x01, 0x05, 0x00]

/-- C6 (counterexample): building the scenario's GetRequest does not emit
the claim's byte sequence (which is itself internally inconsistent: its
`A0 10` PDU header cannot contain the 22 PDU bytes that follow, and its OID
element drops the three final sub-identifiers of 1.3.6.1.2.1.1.5.0). -/
theorem getRequestBuild_counterexample :
    buildBytes msgGetRequest 0 ≠ claimedGetRequestBytes := by decide

/-- C6 (amended): building the scenario's GetRequest emits exactly
`30 26 02 01 01 04 06 "public" A0 19 02 01 01 02 01 00 02 01 00 30 0E 30 0C
06 08 2B 06 01 02 01 01 05 00 05 00`, whose nested length fields are all
consistent with the bytes that follow them (payload 0x26 = 3 + 8 + 27,
PDU payload 0x19 = 3 + 3 + 3 + 16, binding list 0x0E, binding 0x0C,
OID 0x08, Null 0x00); the build is independent of the clock value. -/
theorem getRequestBuild_bytes (now : Nat) :
    buildBytes msgGetRequest now =
      [0x30, 0x26, 0x02, 0x01, 0x01, 0x04, 0x06, 0x70, 0x75, 0x62, 0x6C, 0x69, 0x63,
       0xA0, 0x19, 0x02, 0x01, 0x01, 0x02, 0x01, 0x00, 0x02, 0x01, 0x00,
       0x30, 0x0E, 0x30, 0x0C, 0x06, 0x08, 0x2B, 0x06, 0x01, 0x02, 0x01, 0x01, 0x05, 0x00,
       0x05, 0x00] := rfl

/-! ### Bit-arithmetic toolkit -/

theorem or_div_pow (a b j : Nat) : (a ||| b) / 2 ^ j = a / 2 ^ j ||| b / 2 ^ j := by
  induction j with
  | zero => simp
  | succ j ih =>
    rw [pow_succ, ← Nat.div_div_eq_div_mul, ih, Nat.or_div_two,
      Nat.div_div_eq_div_mul, Nat.div_div_eq_div_mul, ← pow_succ]

theorem or_mod_pow (a b j : Nat) : (a ||| b) % 2 ^ j = a % 2 ^ j ||| b % 2 ^ j := by
  rw [← Nat.and_pow_two_sub_one_eq_mod, ← Nat.and_pow_two_sub_one_eq_mod,
    ← Nat.and_pow_two_sub_one_eq_mod, Nat.and_distrib_right]

theorem or_eq_add_low (j m b : Nat) (hb : b < 2 ^ j) : 2 ^ j * m ||| b = 2 ^ j * m + b := by
  have hd : (2 ^ j * m ||| b) / 2 ^ j = m := by
    rw [or_div_pow, Nat.mul_div_cancel_left _ (Nat.pos_pow_of_pos j (by omega)),
      Nat.div_eq_of_lt hb, Nat.or_zero]
  have hm : (2 ^ j * m ||| b) % 2 ^ j = b := by
    rw [or_mod_pow, Nat.mul_mod_right, Nat.mod_eq_of_lt hb, Nat.zero_or]
  calc 2 ^ j * m ||| b
      = 2 ^ j * ((2 ^ j * m ||| b) / 2 ^ j) + (2 ^ j * m ||| b) % 2 ^ j :=
        (Nat.div_add_mod _ _).symm
    _ = 2 ^ j * m + b := by rw [hd, hm]

theorem and_two_pow_eq (x k : Nat) : x &&& 2 ^ k = if x.testBit k then 2 ^ k else 0 := by
  apply Nat.eq_of_testBit_eq
  intro i
  rw [Nat.testBit_and, Nat.testBit_two_pow]
  by_cases hi : k = i
  · subst hi
    by_cases hx : x.testBit k <;> simp [hx, Nat.testBit_two_pow]
  · by_cases hx : x.testBit k <;> simp [hx, hi, Nat.testBit_two_pow]

theorem and_two_pow_of_lt {x k : Nat} (h : x < 2 ^ k) : x &&& 2 ^ k = 0 := by
  rw [and_two_pow_eq, Nat.testBit_lt_two_pow h, if_neg (by simp)]

theorem and_0x80_eq (x : Nat) : x &&& 0x80 = if x.testBit 7 then 0x80 else 0 := by
  rw [show (0x80 : Nat) = 2 ^ 7 by norm_num]
  exact and_two_pow_eq x 7

theorem and_0x80_mod256 (x : Nat) : x &&& 0x80 = x % 256 &&& 0x80 := by
  rw [and_0x80_eq, and_0x80_eq, show (256 : Nat) = 2 ^ 8 by norm_num,
    Nat.testBit_mod_two_pow]
  simp

theorem shl8_mod32_mod256 (tv : Nat) : ((tv <<< 8) % 4294967296) % 256 = 0 := by
  rw [Nat.shiftLeft_eq, Nat.mod_mod_of_dvd _ (by norm_num : (256 : Nat) ∣ 4294967296)]
  simp [show (2 : Nat) ^ 8 = 256 by norm_num, Nat.mul_mod_left]

theorem tvStep_mod256 (tv b : Nat) (hb : b < 256) :
    ((((tv <<< 8) % 4294967296) ||| b) % 4294967296) % 256 = b := by
  rw [Nat.mod_mod_of_dvd _ (by norm_num : (256 : Nat) ∣ 4294967296),
    show (256 : Nat) = 2 ^ 8 by norm_num, or_mod_pow,
    show (2 : Nat) ^ 8 = 256 by norm_num, shl8_mod32_mod256,
    Nat.mod_eq_of_lt hb, Nat.zero_or]

theorem tvStep_and7F (tv b : Nat) (hb : b < 256) :
    ((((tv <<< 8) % 4294967296) ||| b) % 4294967296) &&& 0x7F = b &&& 0x7F := by
  rw [show (0x7F : Nat) = 2 ^ 7 - 1 by norm_num, Nat.and_pow_two_sub_one_eq_mod,
    Nat.and_pow_two_sub_one_eq_mod]
  rw [show ((((tv <<< 8) % 4294967296) ||| b) % 4294967296) % 2 ^ 7
      = ((((tv <<< 8) % 4294967296) ||| b) % 4294967296) % 256 % 2 ^ 7 from
    (Nat.mod_mod_of_dvd _ (by norm_num)).symm]
  rw [tvStep_mod256 tv b hb]

theorem tvStep_and80 (tv b : Nat) (hb : b < 256) :
    ((((tv <<< 8) % 4294967296) ||| b) % 4294967296) &&& 0x80 = b &&& 0x80 := by
  rw [and_0x80_mod256, tvStep_mod256 tv b hb]

/-! ### 7-bit group round-trip (tag long form) -/

theorem encode7bits_zero (s : Nat) : encode7bits s 0 = [] := rfl

theorem encode7bits_succ (s k : Nat) :
    encode7bits s (k + 1) =
      (((s >>> (7 * k)) &&& 0x7F) ||| (if k ≠ 0 then 0x80 else 0)) :: encode7bits s k := by
  unfold encode7bits
  rw [List.range_succ_eq_map, List.map_cons, List.map_map]
  refine congrArg₂ List.cons ?_ ?_
  · norm_num
  · apply List.map_congr_left
    intro a ha
    simp only [Function.comp_apply, Nat.succ_eq_add_one]
    have h1 : k + 1 - (a + 1) - 1 = k - a - 1 := by omega
    rw [h1]

theorem encode7bits_congr (s t k : Nat)
    (h : ∀ j, j < 7 * k → s.testBit j = t.testBit j) :
    encode7bits s k = encode7bits t k := by
  unfold encode7bits
  apply List.map_congr_left
  intro i hi
  simp only [List.mem_range] at hi
  congr 1
  apply Nat.eq_of_testBit_eq
  intro j
  rw [Nat.testBit_and, Nat.testBit_and, Nat.testBit_shiftRight, Nat.testBit_shiftRight]
  by_cases hj : j < 7
  · rw [h (7 * (k - i - 1) + j) (by omega)]
  · have h7F : (0x7F : Nat).testBit j = false :=
      Nat.testBit_lt_two_pow (by calc (0x7F : Nat) < 2 ^ 7 := by norm_num
                                  _ ≤ 2 ^ j := Nat.pow_le_pow_right (by omega) (by omega))
    rw [h7F]
    simp

theorem encode7bits_mod (s k : Nat) :
    encode7bits (s % 2 ^ (7 * k)) k = encode7bits s k := by
  apply encode7bits_congr
  intro j hj
  rw [Nat.testBit_mod_two_pow]
  simp [hj]

theorem groups7_pos (n : Nat) : 0 < groups7 n := by
  rw [groups7_eq]
  by_cases h : n < 128 <;> simp [h]

theorem groups7_bound (n : Nat) : n < 2 ^ (7 * groups7 n) := by
  induction n using Nat.strong_induction_on with
  | _ n ih =>
    rw [groups7_eq]
    by_cases h : n < 128
    · simpa [h] using h
    · have hd := ih (n / 128) (Nat.div_lt_self (by omega) (by omega))
      simp only [h, if_false]
      have h4 : n < 128 * (n / 128 + 1) := by omega
      have h5 : 128 * (n / 128 + 1) ≤ 128 * 2 ^ (7 * groups7 (n / 128)) :=
        Nat.mul_le_mul_left _ hd
      have h6 : (2 : Nat) ^ (7 * (groups7 (n / 128) + 1)) =
          128 * 2 ^ (7 * groups7 (n / 128)) := by
        rw [Nat.mul_add, Nat.mul_one, pow_add]
        ring
      omega

theorem byte_or_0x80_and (x : Nat) : (x ||| 0x80) &&& 0x80 = 0x80 := by
  rw [Nat.and_distrib_right, and_0x80_eq]
  by_cases h : x.testBit 7 <;> simp [h]

/-- One iteration of the `Type::decode` long-form loop over the leading byte
of a 7-bit group sequence, followed by the rest: the loop terminates exactly
on the final group and reassembles the tag. -/
theorem tyDecodeLoop_spec : ∀ k s tg size tv rest, 0 < k → s < 2 ^ (7 * k) →
    tg * 2 ^ (7 * k) + s < 4294967296 →
    ∃ tv', tyDecodeLoop size tv tg (encode7bits s k ++ rest) =
      some (size + k, tv', tg * 2 ^ (7 * k) + s, rest) := by
  intro k
  induction k with
  | zero => omega
  | succ k ih =>
    intro s tg size tv rest _ hs hbound
    rw [encode7bits_succ]
    have hb256 : ((s >>> (7 * k)) &&& 0x7F) ||| (if k ≠ 0 then 0x80 else 0) < 256 := by
      apply Nat.or_lt_two_pow (n := 8)
      · calc (s >>> (7 * k)) &&& 0x7F < 128 := by
              rw [show (0x7F : Nat) = 2 ^ 7 - 1 by norm_num, Nat.and_pow_two_sub_one_eq_mod]
              exact Nat.mod_lt _ (by norm_num)
          _ ≤ 2 ^ 8 := by norm_num
      · by_cases h : k ≠ 0 <;> simp [h]
    have hsr : s >>> (7 * k) = s / 2 ^ (7 * k) := Nat.shiftRight_eq_div_pow s (7 * k)
    have hdivlt : s / 2 ^ (7 * k) < 2 ^ 7 := by
      rw [Nat.div_lt_iff_lt_mul (Nat.pos_pow_of_pos _ (by omega)), ← pow_add]
      calc s < 2 ^ (7 * (k + 1)) := hs
        _ = 2 ^ (7 + 7 * k) := by ring_nf
    have hand7F : (s >>> (7 * k)) &&& 0x7F = s / 2 ^ (7 * k) := by
      rw [show (0x7F : Nat) = 2 ^ 7 - 1 by norm_num, Nat.and_pow_two_sub_one_eq_mod, hsr,
        Nat.mod_eq_of_lt hdivlt]
    cases Nat.eq_zero_or_pos k with
    | inl hk0 =>
      subst hk0
      simp only [Nat.mul_zero, Nat.shiftRight_zero, ne_eq, not_true_eq_false, if_false,
        Nat.or_zero, encode7bits_zero, List.nil_append]
      have hslt : s < 128 := by simpa using hs
      have hb : s &&& 0x7F = s := by
        rw [show (0x7F : Nat) = 2 ^ 7 - 1 by norm_num, Nat.and_pow_two_sub_one_eq_mod,
          Nat.mod_eq_of_lt (by omega)]
      rw [hb]
      simp only [tyDecodeLoop]
      have h80 : ((((tv <<< 8) % 4294967296) ||| s) % 4294967296) &&& 0x80 = 0 := by
        rw [tvStep_and80 tv s (by omega), and_0x80_eq,
          Nat.testBit_lt_two_pow (show s < 2 ^ 7 by omega)]
        simp
      rw [h80]
      simp only [ne_eq, not_true_eq_false, if_false]
      refine ⟨(((tv <<< 8) % 4294967296) ||| s) % 4294967296, ?_⟩
      rw [tvStep_and7F tv s (by omega)]
      have hb' : s &&& 0x7F = s := hb
      rw [hb']
      have htg7 : (tg <<< 7) % 4294967296 = tg <<< 7 := by
        apply Nat.mod_eq_of_lt
        rw [Nat.shiftLeft_eq]
        have h1 : tg * 2 ^ 7 = tg * 2 ^ (7 * 1) := by norm_num
        omega
      rw [htg7, show tg <<< 7 = 2 ^ 7 * tg from by rw [Nat.shiftLeft_eq]; ring,
        or_eq_add_low 7 tg s (by simpa using hslt)]
      have heq : 2 ^ 7 * tg + s = tg * 2 ^ (7 * (0 + 1)) + s := by ring_nf
      rw [heq]
      rfl
    | inr hkpos =>
      have hkne : k ≠ 0 := by omega
      simp only [hkne, ne_eq, not_false_eq_true, if_true, List.cons_append] at hb256 ⊢
      simp only [tyDecodeLoop]
      have hcont : ((((tv <<< 8) % 4294967296) ||| (((s >>> (7 * k)) &&& 0x7F) ||| 0x80))
          % 4294967296) &&& 0x80 ≠ 0 := by
        rw [tvStep_and80 tv _ hb256, byte_or_0x80_and]
        norm_num
      rw [if_pos hcont]
      have hand7F' : ((((tv <<< 8) % 4294967296) ||| (((s >>> (7 * k)) &&& 0x7F) ||| 0x80))
          % 4294967296) &&& 0x7F = s / 2 ^ (7 * k) := by
        rw [tvStep_and7F tv _ hb256, Nat.and_distrib_right, hand7F,
          show (0x80 : Nat) &&& 0x7F = 0 by decide, Nat.or_zero,
          show (0x7F : Nat) = 2 ^ 7 - 1 by norm_num, Nat.and_pow_two_sub_one_eq_mod,
          Nat.mod_eq_of_lt hdivlt]
      rw [hand7F']
      have htg7 : (tg <<< 7) % 4294967296 = tg <<< 7 := by
        apply Nat.mod_eq_of_lt
        rw [Nat.shiftLeft_eq]
        have h1 : 2 ^ 7 ≤ 2 ^ (7 * (k + 1)) := Nat.pow_le_pow_right (by omega) (by omega)
        have h2 : tg * 2 ^ 7 ≤ tg * 2 ^ (7 * (k + 1)) := Nat.mul_le_mul_left _ h1
        omega
      rw [htg7, show tg <<< 7 = 2 ^ 7 * tg from by rw [Nat.shiftLeft_eq]; ring,
        or_eq_add_low 7 tg (s / 2 ^ (7 * k)) hdivlt]
      rw [← encode7bits_mod s k]
      have hmodlt : s % 2 ^ (7 * k) < 2 ^ (7 * k) := Nat.mod_lt _ (Nat.pos_pow_of_pos _ (by omega))
      have hkey : (2 ^ 7 * tg + s / 2 ^ (7 * k)) * 2 ^ (7 * k) + s % 2 ^ (7 * k)
          = tg * 2 ^ (7 * (k + 1)) + s := by
        have hdm : 2 ^ (7 * k) * (s / 2 ^ (7 * k)) + s % 2 ^ (7 * k) = s := Nat.div_add_mod _ _
        have hpow : (2 : Nat) ^ (7 * (k + 1)) = 2 ^ 7 * 2 ^ (7 * k) := by
          rw [← pow_add]
          ring_nf
        rw [Nat.add_mul, hpow]
        ring_nf
        ring_nf at hdm
        omega
      obtain ⟨tv', htv'⟩ := ih (s % 2 ^ (7 * k)) (2 ^ 7 * tg + s / 2 ^ (7 * k)) (size + 1) _ rest
        hkpos hmodlt (by omega)
      refine ⟨tv', ?_⟩
      rw [htv', hkey]
      congr 2
      omega

theorem tyDecode_short (b : Nat) (hb : b &&& 0x1F ≠ 0x1F) (rest : List Nat) :
    tyDecode (b :: rest) = some (⟨b &&& 0xC0, b &&& 0x20, b &&& 0x1F, 1, b⟩, rest) := by
  simp [tyDecode, hb]

/-- C4: for every tag triple (class, form, number) with the class and form
values the source enums define and any `unsigned int` tag number, decoding
the bytes produced by encoding the tag (`Type::setFlagTag` then
`Type::encode`) reproduces the same class, form and tag number — short
single-byte form below 31, long form with 7-bit continuation groups
otherwise. -/
theorem tag_roundtrip (c f n : Nat)
    (hc : c = 0x00 ∨ c = 0x40 ∨ c = 0x80 ∨ c = 0xC0)
    (hf : f = 0x00 ∨ f = 0x20) (hn : n < 4294967296) (rest : List Nat) :
    ∃ t : Ty, tyDecode (tyEncode (setFlagTag (c ||| f) n) ++ rest) = some (t, rest) ∧
      t.cls = c ∧ t.form = f ∧ t.tag = n := by
  have hcC0 : c &&& 0xC0 = c := by rcases hc with rfl | rfl | rfl | rfl <;> decide
  have hc20 : c &&& 0x20 = 0 := by rcases hc with rfl | rfl | rfl | rfl <;> decide
  have hc1F : c &&& 0x1F = 0 := by rcases hc with rfl | rfl | rfl | rfl <;> decide
  have hc256 : c < 256 := by rcases hc with rfl | rfl | rfl | rfl <;> norm_num
  have hfC0 : f &&& 0xC0 = 0 := by rcases hf with rfl | rfl <;> decide
  have hf20 : f &&& 0x20 = f := by rcases hf with rfl | rfl <;> decide
  have hf1F : f &&& 0x1F = 0 := by rcases hf with rfl | rfl <;> decide
  have hf256 : f < 256 := by rcases hf with rfl | rfl <;> norm_num
  have hflagC0 : (c ||| f) &&& 0xC0 = c := by
    rw [Nat.and_distrib_right, hcC0, hfC0, Nat.or_zero]
  have hflag20 : (c ||| f) &&& 0x20 = f := by
    rw [Nat.and_distrib_right, hc20, hf20, Nat.zero_or]
  by_cases hshort : n < 0x1F
  · -- short form
    have hn1F : n &&& 0x1F = n := by
      rw [show (0x1F : Nat) = 2 ^ 5 - 1 by norm_num, Nat.and_pow_two_sub_one_eq_mod]
      exact Nat.mod_eq_of_lt (by omega)
    have hnC0 : n &&& 0xC0 = 0 := by
      rw [show (0xC0 : Nat) = 0x80 ||| 0x40 by decide, Nat.and_or_distrib_left,
        show (0x80 : Nat) = 2 ^ 7 by norm_num, show (0x40 : Nat) = 2 ^ 6 by norm_num,
        and_two_pow_of_lt (show n < 2 ^ 7 by norm_num; omega),
        and_two_pow_of_lt (show n < 2 ^ 6 by norm_num; omega)]
      rfl
    have hn20 : n &&& 0x20 = 0 := by
      rw [show (0x20 : Nat) = 2 ^ 5 by norm_num,
        and_two_pow_of_lt (show n < 2 ^ 5 by norm_num; omega)]
    have hB256 : (c ||| f) ||| n < 256 := by
      apply Nat.or_lt_two_pow (n := 8)
      · exact Nat.or_lt_two_pow (by norm_num; omega) (by norm_num; omega)
      · norm_num; omega
    have henc : tyEncode (setFlagTag (c ||| f) n) = [(c ||| f) ||| n] := by
      simp only [setFlagTag, if_pos hshort, tyEncode, if_pos rfl]
      rw [hflagC0, hflag20, Nat.mod_eq_of_lt hB256]
      exact if_pos trivial
    have hB1F : ((c ||| f) ||| n) &&& 0x1F = n := by
      rw [Nat.and_distrib_right, Nat.and_distrib_right, hc1F, hf1F, hn1F,
        Nat.or_zero, Nat.zero_or]
    have hBC0 : ((c ||| f) ||| n) &&& 0xC0 = c := by
      rw [Nat.and_distrib_right, hflagC0, hnC0, Nat.or_zero]
    have hB20 : ((c ||| f) ||| n) &&& 0x20 = f := by
      rw [Nat.and_distrib_right, hflag20, hn20, Nat.or_zero]
    have hdec := tyDecode_short ((c ||| f) ||| n) (by rw [hB1F]; omega) rest
    rw [hB1F, hBC0, hB20] at hdec
    rw [henc]
    exact ⟨_, hdec, rfl, rfl, rfl⟩
  · -- long form
    have hgp := groups7_pos n
    have hnbound := groups7_bound n
    have hB256 : (c ||| f) ||| 0x1F < 256 := by
      apply Nat.or_lt_two_pow (n := 8)
      · exact Nat.or_lt_two_pow (by norm_num; omega) (by norm_num; omega)
      · norm_num
    have henc : tyEncode (setFlagTag (c ||| f) n) =
        ((c ||| f) ||| 0x1F) :: encode7bits n (groups7 n) := by
      simp only [setFlagTag, if_neg hshort, tyEncode]
      rw [if_neg (by omega)]
      rw [hflagC0, hflag20, Nat.mod_eq_of_lt hB256]
      rw [show (1 : Nat) + groups7 n - 1 = groups7 n from by omega]
    have hB1F : ((c ||| f) ||| 0x1F) &&& 0x1F = 0x1F := by
      rw [Nat.and_distrib_right, Nat.and_distrib_right, hc1F, hf1F,
        show (0x1F : Nat) &&& 0x1F = 0x1F by decide, Nat.or_zero, Nat.zero_or]
    have hBC0 : ((c ||| f) ||| 0x1F) &&& 0xC0 = c := by
      rw [Nat.and_distrib_right, hflagC0, show (0x1F : Nat) &&& 0xC0 = 0 by decide,
        Nat.or_zero]
    have hB20 : ((c ||| f) ||| 0x1F) &&& 0x20 = f := by
      rw [Nat.and_distrib_right, hflag20, show (0x1F : Nat) &&& 0x20 = 0 by decide,
        Nat.or_zero]
    obtain ⟨tv', hloop⟩ := tyDecodeLoop_spec (groups7 n) n 0 1 ((c ||| f) ||| 0x1F) rest
      hgp hnbound (by simpa using hn)
    rw [henc]
    refine ⟨⟨((c ||| f) ||| 0x1F) &&& 0xC0, ((c ||| f) ||| 0x1F) &&& 0x20, n,
      1 + groups7 n, tv'⟩, ?_, by rw [hBC0], by rw [hB20], rfl⟩
    simp only [tyDecode, List.cons_append, hB1F, if_pos rfl]
    rw [show (1 : Nat) + groups7 n = 1 + groups7 n from rfl] at hloop
    simp only [Nat.zero_mul, Nat.zero_add] at hloop
    rw [hloop]
    rfl

theorem tag_roundtrip_witness :
    ((0x80 : Nat) = 0x00 ∨ (0x80 : Nat) = 0x40 ∨ (0x80 : Nat) = 0x80 ∨ (0x80 : Nat) = 0xC0) ∧
      ((0x00 : Nat) = 0x00 ∨ (0x00 : Nat) = 0x20) ∧ (120 : Nat) < 4294967296 ∧
      ∃ t : Ty, tyDecode (tyEncode (setFlagTag (0x80 ||| 0x00) 120) ++ []) = some (t, []) ∧
        t.cls = 0x80 ∧ t.form = 0x00 ∧ t.tag = 120 :=
  ⟨by decide, by decide, by decide,
    tag_roundtrip 0x80 0x00 120 (by decide) (by decide) (by decide) []⟩

/-! ### Repeat-encoding a Message (C8) -/

/-- The mutable state `Message::build` manipulates: the message fields, the
`Message`'s own child array (the `Message` is itself a `SequenceBER` of
capacity `SNMP_CAPACITY = 6`) and the owned `_varBindList` pointer (`none`
models nullptr, which `build` leaves behind after transferring the list). -/
structure MsgState where
  core : Msg
  children : List Obj
  varBindList : Option (List (List Nat × Obj))

/-- `ArrayBER::add` on the child list alone (fixed capacity 6, silently
dropping an add past the ceiling). -/
def addChild (cs : List Obj) (b : Obj) : List Obj :=
  if cs.length < 6 then cs ++ [b] else cs

/-- One `Message::build(Stream&)` invocation (`build()` then
`encode(stream)`, as `SNMP::send` performs it): the pdu Sequence is
assembled and `pdu->add(_varBindList)` transfers the binding list — inside
`add`, `ber->getSize()` dereferences the pointer, so a null `_varBindList`
crashes (modelled as `none`); version, community and pdu are appended to the
Message's own array; `_varBindList` is nulled; the Message is encoded. -/
def buildStep (s : MsgState) (now : Nat) : Option (MsgState × List Nat) :=
  match s.varBindList with
  | none => none
  | some vbl =>
      let pdu := buildPdu { s.core with varBindList := vbl } now
      let cs := addChild (addChild (addChild s.children (.integer s.core.version))
        (.octetString s.core.community)) pdu
      some ({ s with children := cs, varBindList := none }, objEncode (.seq 0x30 cs))

/-- C8 (amended): encoding a Message is one-shot. A successful build
transfers the varbind list into the encoded PDU and nulls `_varBindList`,
so invoking the encoding again dereferences the null list and fails instead
of reproducing the bytes. -/
theorem buildStep_not_repeatable (s : MsgState) (now now' : Nat) (s' : MsgState)
    (bytes : List Nat) (h : buildStep s now = some (s', bytes)) :
    buildStep s' now' = none := by
  cases hv : s.varBindList with
  | none => simp [buildStep, hv] at h
  | some vbl =>
    simp only [buildStep, hv, Option.some.injEq, Prod.mk.injEq] at h
    obtain ⟨h1, _⟩ := h
    subst h1
    rfl

/-- The state of a freshly constructed GetRequest message before its first
build. -/
def c8State0 : MsgState :=
  ⟨msgGetRequest, [], some [([1, 3, 6, 1, 2, 1, 1, 5, 0], .nullTag 5)]⟩

/-- C8 (counterexample): the first build of the GetRequest succeeds, and
invoking the encoding a second time on the resulting state fails — it does
not produce the identical byte sequence the claim promises. -/
theorem buildStep_twice_counterexample :
    (buildStep c8State0 0).isSome = true ∧
      ((buildStep c8State0 0).bind fun r => buildStep r.1 0) = none :=
  ⟨rfl, rfl⟩

/-- The state after the first successful build of `c8State0`. -/
def c8State1 : MsgState :=
  ⟨msgGetRequest,
   [.integer 1, .octetString [0x70, 0x75, 0x62, 0x6C, 0x69, 0x63],
    .seq 0xA0 [.integer 1, .integer 0, .integer 0,
      .seq 0x30 [.seq 0x30 [.oid [1, 3, 6, 1, 2, 1, 1, 5, 0], .nullTag 5]]]],
   none⟩

/-- The bytes of the first build of `c8State0`. -/
def c8BuildBytes : List Nat :=
  [0x30, 0x26, 0x02, 0x01, 0x01, 0x04, 0x06, 0x70, 0x75, 0x62, 0x6C, 0x69, 0x63,
   0xA0, 0x19, 0x02, 0x01, 0x01, 0x02, 0x01, 0x00, 0x02, 0x01, 0x00,
   0x30, 0x0E, 0x30, 0x0C, 0x06, 0x08, 0x2B, 0x06, 0x01, 0x02, 0x01, 0x01, 0x05, 0x00,
   0x05, 0x00]

theorem buildStep_not_repeatable_witness : buildStep c8State1 3 = none :=
  buildStep_not_repeatable c8State0 0 3 c8State1 c8BuildBytes rfl

/-! ### Decoding: numeric values, octet strings, OIDs -/

/-- `readBytes`/payload copy: reads exactly `n` bytes off the stream. -/
def readN : Nat → List Nat → Option (List Nat × List Nat)
  | 0, bytes => some ([], bytes)
  | _ + 1, [] => none
  | n + 1, b :: rest =>
      match readN n rest with
      | some (xs, r) => some (b :: xs, r)
      | none => none

/-- `BER::decodeNumeric<T>` for a signed `int32_t`: the initial value is all
ones when the peeked first byte has bit 7 set (`stream.peek()` on an empty
stream returns -1, whose bit 7 is also set), then `_length` bytes are
accumulated. -/
def decodeNumericSigned (len : Nat) (bytes : List Nat) : Option (Nat × List Nat) :=
  let init := match bytes.head? with
    | some b => if b &&& 0x80 ≠ 0 then 0xFFFFFFFF else 0
    | none => 0xFFFFFFFF
  readBEOr 32 len init bytes

/-- `BER::decodeNumeric<T>` for an unsigned type of `width` bits: zero
initial value, `_length` accumulated bytes. -/
def decodeNumericUnsigned (width len : Nat) (bytes : List Nat) : Option (Nat × List Nat) :=
  readBEOr width len 0 bytes

/-- The byte loop of `ObjectIdentifierBER::decode` (stream variant) after the
first byte: `while (length) { do { length--; byte = read(); subidentifier =
subidentifier << 7; subidentifier += byte & 0x7F } while (byte & 0x80); append }`.
The accumulator state is `some acc` mid-group; a group still open when the
declared length runs out underflows the unsigned counter (modelled `none`). -/
def oidDecodeLoop : Nat → Option Nat → List Nat → List Nat → Option (List Nat × List Nat)
  | 0, none, comps, bytes => some (comps, bytes)
  | 0, some _, _, _ => none
  | _ + 1, _, _, [] => none
  | rem + 1, accOpt, comps, b :: rest =>
      let acc := accOpt.getD 0
      let acc' := (((acc <<< 7) % 4294967296) + (b &&& 0x7F)) % 4294967296
      if b &&& 0x80 ≠ 0 then oidDecodeLoop rem (some acc') comps rest
      else oidDecodeLoop rem none (comps ++ [acc']) rest

/-! ### The polymorphic decoder (`BER::create` + virtual `decode`) -/

/-- The tag dispatch of `BER::create` followed by the created object's
`decode(stream, Flag::Typed)`, after the length field has been decoded:
`childF`/`opF` are the array child loop and the Opaque embedded loop at
the next recursion level down. An unknown type (the factory returns
nullptr and the caller loops without advancing) is `none`. -/
def decodeTypedBody (childF : Nat → Nat → List Nat → Option (List Obj × Nat × List Nat))
    (opF : Nat → List Nat → Option (Obj × List Nat))
    (tv : Nat) (len : Len) (r1 : List Nat) : Option (Obj × Nat × List Nat) :=
  let tySz := (setType tv).size
  if tv = 0x01 then
    match r1 with
    | [] => none
    | b :: r2 => some (.boolean (b != 0), tySz + len.size + len.length, r2)
  else if tv = 0x02 then
    match decodeNumericSigned len.length r1 with
    | some (v, r2) => some (.integer v, tySz + len.size + len.length, r2)
    | none => none
  else if tv = 0x04 then
    match readN len.length r1 with
    | some (payload, r2) => some (.octetString payload, tySz + len.size + len.length, r2)
    | none => none
  else if tv = 0x05 ∨ tv = 0x80 ∨ tv = 0x81 ∨ tv = 0x82 then
    some (.nullTag tv, tySz + len.size + len.length, r1)
  else if tv = 0x06 then
    if len.length = 0 then some (.oid [], tySz + len.size, r1)
    else
      match r1 with
      | [] => none
      | b :: r2 =>
          match oidDecodeLoop (len.length - 1) none [b / 40, b % 40] r2 with
          | some (comps, r3) => some (.oid comps, tySz + len.size + len.length, r3)
          | none => none
  else if tv = 0x40 then
    match readN len.length r1 with
    | some (payload, r2) => some (.ipAddress payload, tySz + len.size + len.length, r2)
    | none => none
  else if tv = 0x41 then
    match decodeNumericUnsigned 32 len.length r1 with
    | some (v, r2) => some (.counter32 v, tySz + len.size + len.length, r2)
    | none => none
  else if tv = 0x42 then
    match decodeNumericUnsigned 32 len.length r1 with
    | some (v, r2) => some (.gauge32 v, tySz + len.size + len.length, r2)
    | none => none
  else if tv = 0x43 then
    match decodeNumericUnsigned 32 len.length r1 with
    | some (v, r2) => some (.timeTicks v, tySz + len.size + len.length, r2)
    | none => none
  else if tv = 0x46 then
    match decodeNumericUnsigned 64 len.length r1 with
    | some (v, r2) => some (.counter64 v, tySz + len.size + len.length, r2)
    | none => none
  else if tv = 0x48 then
    match decodeNumericUnsigned 32 len.length r1 with
    | some (v, r2) => some (.floatV v, tySz + len.size + len.length, r2)
    | none => none
  else if tv = 0x9F78 then
    match decodeNumericUnsigned 32 len.length r1 with
    | some (v, r2) => some (.opaqueFloat v, tySz + len.size + len.length, r2)
    | none => none
  else if tv = 0x44 then
    if len.length = 0 then none
    else
      match opF len.length r1 with
      | some (inner, r2) => some (.opaqueW inner, tySz + len.size + len.length, r2)
      | none => none
  else if tv = 0x30 ∨ (0xA0 ≤ tv ∧ tv ≤ 0xA8) then
    if len.length = 0 then some (.seq tv [], tySz + len.size, r1)
    else
      match childF len.length 0 r1 with
      | some (cs, accLen, r2) =>
          some (.seq tv cs, tySz + (setLength accLen).size + accLen, r2)
      | none => none
  else none

/-- The four decode entry points, indexed by recursion fuel (every mutual
call of the source's decode loops crosses one level of this tuple, so the
whole family is structurally recursive on the fuel):
1. `decodeAny` — `type.decode(stream)` followed by `create(type)` and the
   created object's `decode(stream, Flag::Typed)`: one complete TLV.
2. `decodeTyped` — length decode, then `decodeTypedBody` (see there);
   returns the object, its `getSize()` as the enclosing loops read it, and
   the rest of the stream.
3. `decodeChildren` — the child loop of `ArrayBER::decode` (stream variant):
   `do { type.decode; ber = create(type); ber->decode(Typed);
   length -= ber->getSize(); add(ber) } while (length)`, where `rem` is the
   remaining declared length (a child size of zero or past `rem` underflows
   the unsigned counter, modelled `none`) and `add` keeps at most
   `SNMP_CAPACITY = 6` children, counting and accumulating `_length` only
   for those kept.
4. `decodeOpaqueInner` — the embedded-object loop of `OpaqueBER::decode`:
   repeatedly decodes an object, keeping the last, until the declared
   length is exhausted (`length -= _ber->getSize()`; overshooting
   underflows). -/
def decoders : Nat →
    (List Nat → Option (Obj × Nat × List Nat)) ×
    (Nat → List Nat → Option (Obj × Nat × List Nat)) ×
    (Nat → Nat → List Nat → Option (List Obj × Nat × List Nat)) ×
    (Nat → List Nat → Option (Obj × List Nat))
  | 0 => (fun _ => none, fun _ _ => none, fun _ _ _ => none, fun _ _ => none)
  | fuel + 1 =>
    ( fun bytes =>
        match tyDecode bytes with
        | none => none
        | some (ty, r1) => (decoders fuel).2.1 ty.typeVal r1,
      fun tv bytes =>
        match lengthDecode bytes with
        | none => none
        | some (len, r1) =>
            decodeTypedBody ((decoders fuel).2.2.1) ((decoders fuel).2.2.2) tv len r1,
      fun rem count bytes =>
      match (decoders fuel).1 bytes with
      | none => none
      | some (obj, sz, r2) =>
          if 0 < sz ∧ sz ≤ rem then
            let kept := count < 6
            if rem - sz = 0 then
              some (if kept then [obj] else [], if kept then sz else 0, r2)
            else
              match (decoders fuel).2.2.1 (rem - sz) (if kept then count + 1 else count) r2 with
              | none => none
              | some (cs, accLen, r3) =>
                  some (if kept then obj :: cs else cs, (if kept then sz else 0) + accLen, r3)
          else none,
      fun rem bytes =>
      match (decoders fuel).1 bytes with
      | none => none
      | some (obj, sz, r2) =>
          if 0 < sz ∧ sz ≤ rem then
            if rem - sz = 0 then some (obj, r2)
            else (decoders fuel).2.2.2 (rem - sz) r2
          else none )

/-- Entry point 1 of `decoders` (see there). -/
def decodeAny (fuel : Nat) : List Nat → Option (Obj × Nat × List Nat) := (decoders fuel).1

/-- Entry point 2 of `decoders` (see there). -/
def decodeTyped (fuel : Nat) : Nat → List Nat → Option (Obj × Nat × List Nat) :=
  (decoders fuel).2.1

/-- Entry point 3 of `decoders` (see there). -/
def decodeChildren (fuel : Nat) : Nat → Nat → List Nat → Option (List Obj × Nat × List Nat) :=
  (decoders fuel).2.2.1

/-- Entry point 4 of `decoders` (see there). -/
def decodeOpaqueInner (fuel : Nat) : Nat → List Nat → Option (Obj × List Nat) :=
  (decoders fuel).2.2.2

theorem decodeAny_succ (fuel : Nat) (bytes : List Nat) :
    decodeAny (fuel + 1) bytes =
      match tyDecode bytes with
      | none => none
      | some (ty, r1) => decodeTyped fuel ty.typeVal r1 := rfl

theorem decodeChildren_succ (fuel rem count : Nat) (bytes : List Nat) :
    decodeChildren (fuel + 1) rem count bytes =
      match decodeAny fuel bytes with
      | none => none
      | some (obj, sz, r2) =>
          if 0 < sz ∧ sz ≤ rem then
            if rem - sz = 0 then
              some (if count < 6 then [obj] else [], if count < 6 then sz else 0, r2)
            else
              match decodeChildren fuel (rem - sz) (if count < 6 then count + 1 else count) r2 with
              | none => none
              | some (cs, accLen, r3) =>
                  some (if count < 6 then obj :: cs else cs,
                    (if count < 6 then sz else 0) + accLen, r3)
          else none := rfl

theorem decodeOpaqueInner_succ (fuel rem : Nat) (bytes : List Nat) :
    decodeOpaqueInner (fuel + 1) rem bytes =
      match decodeAny fuel bytes with
      | none => none
      | some (obj, sz, r2) =>
          if 0 < sz ∧ sz ≤ rem then
            if rem - sz = 0 then some (obj, r2)
            else decodeOpaqueInner fuel (rem - sz) r2
          else none := rfl

/-! ### Message parsing (`Message::parse`) -/

/-- `static_cast<IntegerBER*>(...)->getValue()`: reads the value when the
object really is an IntegerBER; any other variant is a reinterpreting cast
of the wrong class (undefined behaviour), modelled as `none`. -/
def asInteger : Obj → Option Nat
  | .integer v => some v
  | _ => none

/-- `static_cast<OctetStringBER*>(...)->getValue()` (the stored bytes). -/
def asOctetString : Obj → Option (List Nat)
  | .octetString s => some s
  | _ => none

/-- `static_cast<SequenceBER*>(...)`: the tag and children. -/
def asSeq : Obj → Option (Nat × List Obj)
  | .seq t cs => some (t, cs)
  | _ => none

/-- `static_cast<ObjectIdentifierBER*>(...)->getValue()` (the components of
the dotted-decimal string). -/
def asOid : Obj → Option (List Nat)
  | .oid s => some s
  | _ => none

/-- `static_cast<IPAddressBER*>(...)->getValue()` (the 4 stored bytes). -/
def asIPAddress : Obj → Option (List Nat)
  | .ipAddress s => some s
  | _ => none

/-- `static_cast<TimeTicksBER*>(...)->getValue()`. -/
def asTimeTicks : Obj → Option Nat
  | .timeTicks v => some v
  | _ => none

/-- The fields `Message::parse` extracts, per PDU kind (the source's union
overlays them; only the branch that parsed is meaningful). -/
inductive ParsedPdu where
  | trap (enterprise agentAddr : List Nat) (genericTrap specificTrap timeStamp : Nat)
  | bulk (requestID nonRepeaters maxRepetitions : Nat)
  | generic (requestID errorStatus errorIndex : Nat)

/-- The observable result of a successful `Message::parse`. -/
structure Parsed where
  version : Nat
  community : List Nat
  type : Nat
  pdu : ParsedPdu
  varBinds : List (List Nat × Obj)

/-- One entry of the branched `VarBindList`: `VarBind::getName()` (cast of
child 0 to ObjectIdentifierBER) and `VarBind::getValue()` (child 1). -/
def parseVarBind (o : Obj) : Option (List Nat × Obj) :=
  match o with
  | .seq _ cs =>
      match cs[0]?, cs[1]? with
      | some name, some value =>
          match asOid name with
          | some s => some (s, value)
          | none => none
      | _, _ => none
  | _ => none

/-- The field-extraction half of `Message::parse` (the `parse()` method):
child 0 version as uint8, child 1 community, child 2 the pdu whose tag
truncated to uint8 is the type; then the per-kind casts, and the varbind
list at index 5 for Trap, 3 otherwise. -/
def parseFields (children : List Obj) : Option Parsed := do
  let v ← children[0]? >>= asInteger
  let comm ← children[1]? >>= asOctetString
  let (ptag, pchildren) ← children[2]? >>= asSeq
  let t := ptag % 256
  let pdu ←
    if t = 0xA4 then do
      let e ← pchildren[0]? >>= asOid
      let a ← pchildren[1]? >>= asIPAddress
      let g ← pchildren[2]? >>= asInteger
      let sp ← pchildren[3]? >>= asInteger
      let ts ← pchildren[4]? >>= asTimeTicks
      pure (ParsedPdu.trap e a (g % 256) (sp % 256) ts)
    else if t = 0xA5 then do
      let rid ← pchildren[0]? >>= asInteger
      let nr ← pchildren[1]? >>= asInteger
      let mr ← pchildren[2]? >>= asInteger
      pure (ParsedPdu.bulk rid (nr % 256) (mr % 256))
    else do
      let rid ← pchildren[0]? >>= asInteger
      let es ← pchildren[1]? >>= asInteger
      let ei ← pchildren[2]? >>= asInteger
      pure (ParsedPdu.generic rid (es % 256) (ei % 256))
  let (_, vbs) ← pchildren[if t = 0xA4 then 5 else 3]? >>= asSeq
  let varBinds ← vbs.mapM parseVarBind
  pure { version := v % 256, community := comm, type := t, pdu := pdu, varBinds := varBinds }

/-- `Message::parse(Stream&)`: `decode(stream)` (the Message decodes itself
as a SequenceBER — type byte unchecked, then length, then children by
factory dispatch) followed by the field extraction `parseFields`. -/
def parseMessage (fuel : Nat) (bytes : List Nat) : Option Parsed := do
  let (_, r1) ← tyDecode bytes
  let (len, r2) ← lengthDecode r1
  let (children, _, _) ←
    if len.length = 0 then some (([] : List Obj), 0, r2)
    else decodeChildren fuel len.length 0 r2
  parseFields children

/-! ### Round-trip infrastructure: well-formedness, fuel, payload lemmas -/

theorem bytesOf_pos (n : Nat) : 0 < bytesOf n := by
  rw [bytesOf_eq]
  split <;> omega

theorem setType_size_pos (t : Nat) : 0 < (setType t).size := by
  by_cases h : bytesOf t = 1
  · simp [setType, h]
  · simp [setType, h]
    exact bytesOf_pos t

theorem setLength_short (n : Nat) (h : n ≤ 127) : setLength n = ⟨n, 1⟩ := by
  unfold setLength
  rw [if_neg (by omega)]

theorem setLength_size_pos (n : Nat) : 0 < (setLength n).size := by
  unfold setLength
  split <;> simp

theorem objSize_def (o : Obj) :
    objSize o = (setType (tagOf o)).size + (setLength (objLength o)).size + objLength o := rfl

theorem objSize_ge_two (o : Obj) : 2 ≤ objSize o := by
  have h1 := setType_size_pos (tagOf o)
  have h2 := setLength_size_pos (objLength o)
  rw [objSize_def]
  omega

theorem objSize_short (o : Obj) (h : objLength o ≤ 127) :
    objSize o = (setType (tagOf o)).size + 1 + objLength o := by
  rw [objSize_def, setLength_short _ h]

theorem objListLength_eq_zero {cs : List Obj} (h : objListLength cs = 0) : cs = [] := by
  cases cs with
  | nil => rfl
  | cons c cs =>
    rw [objListLength_cons] at h
    have := objSize_ge_two c
    omega

/-- Well-formedness of an OID value list: decodable dotted-decimal data. The
first two components must pack into one byte with the second below 40, the
later components must fit the decoder's `unsigned int`; a one-component list
is not representable (`oidLen` skips it entirely). -/
def wfOid : List Nat → Bool
  | [] => true
  | [_] => false
  | a :: b :: rest =>
      decide (b < 40) && decide (40 * a + b < 256) &&
        rest.all (fun s => decide (s < 4294967296))

mutual
/-- Well-formedness of a BER object: numeric values fit their C++ type's
width, null/sequence tags are ones `BER::create` dispatches back to the same
class, IP addresses hold 4 bytes, OID components are decodable, and no array
exceeds the `SNMP_CAPACITY = 6` silently-dropping `add`. -/
def wfObj : Obj → Bool
  | .boolean _ => true
  | .integer p => decide (p < 4294967296)
  | .octetString _ => true
  | .nullTag t => decide (t = 0x05) || decide (t = 0x80) || decide (t = 0x81) || decide (t = 0x82)
  | .oid s => wfOid s
  | .ipAddress s => decide (s.length = 4)
  | .counter32 v => decide (v < 4294967296)
  | .gauge32 v => decide (v < 4294967296)
  | .timeTicks v => decide (v < 4294967296)
  | .counter64 v => decide (v < 18446744073709551616)
  | .floatV p => decide (p < 4294967296)
  | .opaqueFloat p => decide (p < 4294967296)
  | .opaqueW inner => wfObj inner
  | .seq t cs =>
      (decide (t = 0x30) || (decide (0xA0 ≤ t) && decide (t ≤ 0xA8))) &&
        decide (cs.length ≤ 6) && wfList cs

/-- Well-formedness of an array's children. -/
def wfList : List Obj → Bool
  | [] => true
  | c :: cs => wfObj c && wfList cs
end

mutual
/-- Recursion depth needed to decode an encoded object (fuel for
`decodeAny`): two frames for a leaf, plus one frame per nesting level. -/
def fuelObj : Obj → Nat
  | .boolean _ => 2
  | .integer _ => 2
  | .octetString _ => 2
  | .nullTag _ => 2
  | .oid _ => 2
  | .ipAddress _ => 2
  | .counter32 _ => 2
  | .gauge32 _ => 2
  | .timeTicks _ => 2
  | .counter64 _ => 2
  | .floatV _ => 2
  | .opaqueFloat _ => 2
  | .opaqueW inner => 3 + fuelObj inner
  | .seq _ cs => 2 + fuelList cs

/-- Fuel needed by `decodeChildren` over an encoded child list. -/
def fuelList : List Obj → Nat
  | [] => 0
  | c :: cs => 1 + fuelObj c + fuelList cs
end

theorem fuelObj_ge_two (o : Obj) : 2 ≤ fuelObj o := by
  cases o <;> simp only [fuelObj] <;> omega

/-- The value bytes each subclass's `encode` emits after the inherited
type/length header. -/
def objValue : Obj → List Nat
  | .boolean v => [if v then 0xFF else 0x00]
  | .integer p => intPayload p (intLen p)
  | .octetString s => s
  | .nullTag _ => []
  | .oid s => oidPayload s
  | .ipAddress s => s
  | .counter32 v => bePayload v (setPositiveLen v)
  | .gauge32 v => bePayload v (setPositiveLen v)
  | .timeTicks v => bePayload v (setPositiveLen v)
  | .counter64 v => bePayload v (setPositiveLen v)
  | .floatV p => bePayload p 4
  | .opaqueFloat p => bePayload p 4
  | .opaqueW inner => objEncode inner
  | .seq _ cs => objEncodeList cs

theorem objEncode_decomp (o : Obj) :
    objEncode o =
      tyEncode (setType (tagOf o)) ++ lengthEncode (setLength (objLength o)) ++ objValue o := by
  cases o <;> first | rfl | simp [objEncode, objValue, tagOf, objLength]

theorem readN_append (xs rest : List Nat) : readN xs.length (xs ++ rest) = some (xs, rest) := by
  induction xs with
  | nil => rfl
  | cons b t ih => simp [readN, ih]

theorem lengthEncode_short (n : Nat) (h : n ≤ 127) : lengthEncode (setLength n) = [n] := by
  rw [setLength_short n h]
  unfold lengthEncode
  rw [if_neg (by simpa using h)]
  simp
  omega

theorem lengthDecode_short (n : Nat) (h : n ≤ 127) (rest : List Nat) :
    lengthDecode (n :: rest) = some (⟨n, 1⟩, rest) := by
  have h80 : n &&& 0x80 = 0 := by
    rw [show (0x80 : Nat) = 2 ^ 7 by norm_num]
    exact and_two_pow_of_lt (by omega)
  simp [lengthDecode, h80]

theorem bePayload_zero (v : Nat) : bePayload v 0 = [] := rfl

theorem bePayload_succ (v k : Nat) :
    bePayload v (k + 1) = ((v >>> (k * 8)) % 256) :: bePayload v k := by
  unfold bePayload
  rw [List.range_succ_eq_map, List.map_cons, List.map_map]
  refine congrArg₂ List.cons ?_ ?_
  · norm_num
  · apply List.map_congr_left
    intro a ha
    simp only [Function.comp_apply, Nat.succ_eq_add_one]
    have h1 : k + 1 - (a + 1) - 1 = k - a - 1 := by omega
    rw [h1]

theorem shl8_modw_mod256 (acc w : Nat) (hw : 8 ≤ w) : ((acc <<< 8) % 2 ^ w) % 256 = 0 := by
  have hdvd : (256 : Nat) ∣ 2 ^ w := by
    rw [show (256 : Nat) = 2 ^ 8 by norm_num]
    exact pow_dvd_pow 2 hw
  rw [Nat.shiftLeft_eq, Nat.mod_mod_of_dvd _ hdvd,
    show (2 : Nat) ^ 8 = 256 by norm_num, Nat.mul_mod_left]

theorem or_eq_add_mul256 (X b : Nat) (hX : X % 256 = 0) (hb : b < 256) : X ||| b = X + b := by
  have h256 : (2 : Nat) ^ 8 = 256 := by norm_num
  have hX' : X = 2 ^ 8 * (X / 256) := by rw [h256]; omega
  rw [hX', or_eq_add_low 8 (X / 256) b (by rw [h256]; exact hb)]

/-- One full big-endian OR-fold over the payload bytes of `v`: the
accumulator picks up the low `len` base-256 digits of `v`, modulo the
register width. -/
theorem readBEOr_bePayload (w : Nat) (hw : 8 ≤ w) :
    ∀ len v acc rest, acc < 2 ^ w →
      readBEOr w len acc (bePayload v len ++ rest) =
        some ((acc * 256 ^ len + v % 256 ^ len) % 2 ^ w, rest) := by
  have hwpos : 0 < 2 ^ w := Nat.pos_pow_of_pos w (by omega)
  intro len
  induction len with
  | zero =>
    intro v acc rest hacc
    simp only [bePayload_zero, List.nil_append, readBEOr, pow_zero, Nat.mod_one,
      Nat.mul_one, Nat.add_zero, Nat.mod_eq_of_lt hacc]
  | succ k ih =>
    intro v acc rest hacc
    rw [bePayload_succ]
    simp only [List.cons_append, readBEOr, List.append_eq]
    have hdlt : (v >>> (k * 8)) % 256 < 256 := Nat.mod_lt _ (by norm_num)
    have hstep : (((acc <<< 8) % 2 ^ w) ||| ((v >>> (k * 8)) % 256) % 256) % 2 ^ w =
        (acc * 256 + (v >>> (k * 8)) % 256) % 2 ^ w := by
      rw [Nat.mod_mod_of_dvd _ (by norm_num : (256 : Nat) ∣ 256),
        or_eq_add_mul256 _ _ (shl8_modw_mod256 acc w hw) hdlt,
        Nat.shiftLeft_eq, show (2 : Nat) ^ 8 = 256 by norm_num, Nat.mod_add_mod]
    rw [hstep, ih v _ rest (Nat.mod_lt _ hwpos)]
    congr 2
    have hdig : ((v >>> (k * 8)) % 256) * 256 ^ k + v % 256 ^ k = v % 256 ^ (k + 1) := by
      rw [Nat.shiftRight_eq_div_pow, show (2 : Nat) ^ (k * 8) = 256 ^ k by
          rw [show (256 : Nat) = 2 ^ 8 by norm_num, ← pow_mul]; ring_nf,
        pow_succ, Nat.mod_mul]
      ring
    calc ((acc * 256 + (v >>> (k * 8)) % 256) % 2 ^ w * 256 ^ k + v % 256 ^ k) % 2 ^ w
        = ((acc * 256 + (v >>> (k * 8)) % 256) % 2 ^ w * 256 ^ k % 2 ^ w
            + v % 256 ^ k % 2 ^ w) % 2 ^ w := by rw [Nat.add_mod]
      _ = ((acc * 256 + (v >>> (k * 8)) % 256) * 256 ^ k % 2 ^ w
            + v % 256 ^ k % 2 ^ w) % 2 ^ w := by rw [Nat.mod_mul_mod]
      _ = ((acc * 256 + (v >>> (k * 8)) % 256) * 256 ^ k + v % 256 ^ k) % 2 ^ w := by
            rw [← Nat.add_mod]
      _ = (acc * 256 ^ (k + 1) + (((v >>> (k * 8)) % 256) * 256 ^ k + v % 256 ^ k)) % 2 ^ w := by
            rw [Nat.add_mul, pow_succ]
            ring_nf
      _ = (acc * 256 ^ (k + 1) + v % 256 ^ (k + 1)) % 2 ^ w := by rw [hdig]

theorem setPositiveLen_pos (v : Nat) : 0 < setPositiveLen v := by
  rw [setPositiveLen_eq]
  split <;> omega

theorem or_eq_zero_split (a b : Nat) (h : a ||| b = 0) : a = 0 ∧ b = 0 := by
  constructor
  · apply Nat.eq_of_testBit_eq
    intro i
    have h1 := congrArg (fun x => Nat.testBit x i) h
    simp only [Nat.testBit_or, Nat.zero_testBit] at h1
    rcases Bool.or_eq_false_iff.mp h1 with ⟨h2, _⟩
    simp [h2]
  · apply Nat.eq_of_testBit_eq
    intro i
    have h1 := congrArg (fun x => Nat.testBit x i) h
    simp only [Nat.testBit_or, Nat.zero_testBit] at h1
    rcases Bool.or_eq_false_iff.mp h1 with ⟨_, h2⟩
    simp [h2]

/-- The `setPositive` scan stops with the most significant emitted byte below
0x80: the value is bounded by half the top digit's place value. -/
theorem setPositiveLen_bound (v : Nat) : v < 2 ^ (8 * setPositiveLen v - 1) := by
  induction v using Nat.strong_induction_on with
  | _ v ih =>
    rw [setPositiveLen_eq]
    have hsr : v >>> 8 = v / 256 := Nat.shiftRight_eq_div_pow v 8
    by_cases h : (v >>> 8) ||| (v &&& 0x80) = 0
    · rw [if_pos h]
      obtain ⟨h1, h2⟩ := or_eq_zero_split _ _ h
      have hvlt : v < 256 := by omega
      have htb : v.testBit 7 = false := by
        by_contra hb
        rw [and_0x80_eq, if_pos (by simpa using hb)] at h2
        omega
      rw [Nat.testBit_to_div_mod] at htb
      simp only [decide_eq_false_iff_not] at htb
      have h128 : (2 : Nat) ^ 7 = 128 := by norm_num
      have hgoal : (2 : Nat) ^ (8 * 1 - 1) = 128 := by norm_num
      omega
    · rw [if_neg h]
      by_cases hv0 : v = 0
      · subst hv0
        exact absurd (by decide) h
      rw [hsr]
      have hlt : v / 256 < v := Nat.div_lt_self (by omega) (by omega)
      have hrec := ih (v / 256) hlt
      have hpos := setPositiveLen_pos (v / 256)
      have hpow : (2 : Nat) ^ (8 * (1 + setPositiveLen (v / 256)) - 1) =
          256 * 2 ^ (8 * setPositiveLen (v / 256) - 1) := by
        rw [show 8 * (1 + setPositiveLen (v / 256)) - 1
            = 8 + (8 * setPositiveLen (v / 256) - 1) from by omega, pow_add]
        norm_num
      rw [hpow]
      omega

/-- Decoding the `setPositive` payload of an unsigned value recovers it. -/
theorem unsigned_roundtrip (w v : Nat) (hw : 8 ≤ w) (hv : v < 2 ^ w) (rest : List Nat) :
    decodeNumericUnsigned w (setPositiveLen v) (bePayload v (setPositiveLen v) ++ rest) =
      some (v, rest) := by
  unfold decodeNumericUnsigned
  rw [readBEOr_bePayload w hw _ v 0 rest (Nat.pos_pow_of_pos w (by omega))]
  have hbound := setPositiveLen_bound v
  have hlen := setPositiveLen_pos v
  have h1 : (2 : Nat) ^ (8 * setPositiveLen v - 1) ≤ 256 ^ setPositiveLen v := by
    rw [show (256 : Nat) = 2 ^ 8 by norm_num, ← pow_mul]
    exact Nat.pow_le_pow_right (by omega) (by omega)
  rw [Nat.zero_mul, Nat.zero_add,
    Nat.mod_eq_of_lt (show v < 256 ^ setPositiveLen v by omega), Nat.mod_eq_of_lt hv]

/-- Decoding a fixed four-byte big-endian payload (Float/OpaqueFloat)
recovers the 32-bit pattern. -/
theorem fixed4_roundtrip (v : Nat) (hv : v < 4294967296) (rest : List Nat) :
    decodeNumericUnsigned 32 4 (bePayload v 4 ++ rest) = some (v, rest) := by
  unfold decodeNumericUnsigned
  rw [readBEOr_bePayload 32 (by norm_num) 4 v 0 rest (by norm_num)]
  have h1 : (256 : Nat) ^ 4 = 4294967296 := by norm_num
  have h2 : (2 : Nat) ^ 32 = 4294967296 := by norm_num
  rw [Nat.zero_mul, Nat.zero_add, h1, h2, Nat.mod_eq_of_lt hv, Nat.mod_eq_of_lt hv]

theorem and_shl (x m k : Nat) : x &&& (m <<< k) = ((x >>> k) &&& m) <<< k := by
  apply Nat.eq_of_testBit_eq
  intro i
  simp only [Nat.testBit_and, Nat.testBit_shiftLeft, Nat.testBit_shiftRight]
  by_cases h : k ≤ i
  · have hki : k + (i - k) = i := by omega
    simp [h, hki, Bool.and_left_comm, Bool.and_comm, Bool.and_assoc]
  · simp [h]

/-- The `setNegative` mask `word & 0xFF80` in arithmetic form. -/
theorem and_FF80_char (x : Nat) : x &&& 0xFF80 = ((x / 128) % 512) * 128 := by
  have h : x &&& 0xFF80 = ((x >>> 7) &&& 0x1FF) <<< 7 := by
    rw [show (0xFF80 : Nat) = 0x1FF <<< 7 by decide, and_shl]
  rw [h, Nat.shiftLeft_eq, Nat.shiftRight_eq_div_pow,
    show (0x1FF : Nat) = 2 ^ 9 - 1 by norm_num, Nat.and_pow_two_sub_one_eq_mod]

theorem and_80_char (x : Nat) : x &&& 0x80 = ((x / 128) % 2) * 128 := by
  have h : x &&& 0x80 = ((x >>> 7) &&& 1) <<< 7 := by
    rw [show (0x80 : Nat) = 1 <<< 7 by decide, and_shl]
  rw [h, Nat.shiftLeft_eq, Nat.shiftRight_eq_div_pow]
  rw [show (1 : Nat) = 2 ^ 1 - 1 by norm_num, Nat.and_pow_two_sub_one_eq_mod]

theorem and_sign_char (x : Nat) :
    x &&& 0x80000000 = ((x / 2147483648) % 2) * 2147483648 := by
  have h : x &&& 0x80000000 = ((x >>> 31) &&& 1) <<< 31 := by
    rw [show (0x80000000 : Nat) = 1 <<< 31 by decide, and_shl]
  rw [h, Nat.shiftLeft_eq, Nat.shiftRight_eq_div_pow]
  rw [show (1 : Nat) = 2 ^ 1 - 1 by norm_num, Nat.and_pow_two_sub_one_eq_mod]

/-- Low-byte view of the arithmetic shift: for shifts up to 24 bits the
sign-extension bits lie above bit 7. -/
theorem asr32_mod256 (p k : Nat) (hk : k ≤ 24) : asr32 p k % 256 = (p >>> k) % 256 := by
  unfold asr32
  split
  · rfl
  · rw [show (256 : Nat) = 2 ^ 8 by norm_num, or_mod_pow]
    have hz : ((2 ^ k - 1) <<< (32 - k)) % 2 ^ 8 = 0 := by
      rw [Nat.shiftLeft_eq, show 32 - k = 8 + (24 - k) from by omega, pow_add,
        show (2 ^ k - 1) * (2 ^ 8 * 2 ^ (24 - k)) = 2 ^ 8 * ((2 ^ k - 1) * 2 ^ (24 - k))
          from by ring, Nat.mul_mod_right]
    rw [hz, Nat.or_zero]

theorem intPayload_nonneg (p len : Nat) (h : p &&& 0x80000000 = 0) :
    intPayload p len = bePayload p len := by
  unfold intPayload bePayload
  apply List.map_congr_left
  intro i _
  unfold asr32
  rw [if_pos h]

theorem intPayload_le4 (p len : Nat) (hlen : len ≤ 4) :
    intPayload p len = bePayload p len := by
  unfold intPayload bePayload
  apply List.map_congr_left
  intro i hi
  simp only [List.mem_range] at hi
  have h8 : (len - i - 1) * 8 ≤ 24 := by omega
  exact asr32_mod256 p _ h8

theorem decodeNumericSigned_cons (len b : Nat) (l : List Nat) :
    decodeNumericSigned len (b :: l) =
      readBEOr 32 len (if b &&& 0x80 ≠ 0 then 0xFFFFFFFF else 0) (b :: l) := rfl

/-- Decoding a negative `int32` payload of the stated byte count: the sign
extension initialises the accumulator to all ones and the fold restores the
bit pattern. -/
theorem intNeg_decode (len p : Nat) (rest : List Nat) (hp : p < 4294967296)
    (h1 : 1 ≤ len) (h4 : len ≤ 4)
    (hdiv : p / 2 ^ (8 * len) = 2 ^ (32 - 8 * len) - 1)
    (hbyte : 128 ≤ p / 2 ^ (8 * (len - 1)) % 256) :
    decodeNumericSigned len (bePayload p len ++ rest) = some (p, rest) := by
  have hw : (2 : Nat) ^ 32 = 4294967296 := by norm_num
  interval_cases len
  · norm_num at hdiv hbyte
    have hne : p % 256 &&& 0x80 ≠ 0 := by
      rw [and_80_char]
      omega
    rw [show bePayload p 1 = [p % 256] from rfl, List.cons_append,
      decodeNumericSigned_cons, if_pos hne, show ([] : List Nat) ++ rest = rest from rfl,
      show (p % 256 :: rest) = bePayload p 1 ++ rest from rfl,
      readBEOr_bePayload 32 (by norm_num) 1 p 0xFFFFFFFF rest (by norm_num)]
    congr 2
    norm_num
    omega
  · norm_num at hdiv hbyte
    have hne : (p >>> 8) % 256 &&& 0x80 ≠ 0 := by
      rw [Nat.shiftRight_eq_div_pow, and_80_char]
      norm_num
      omega
    rw [show bePayload p 2 = (p >>> 8) % 256 :: bePayload p 1 from rfl, List.cons_append,
      decodeNumericSigned_cons, if_pos hne, ← List.cons_append,
      show ((p >>> 8) % 256 :: bePayload p 1) = bePayload p 2 from rfl,
      readBEOr_bePayload 32 (by norm_num) 2 p 0xFFFFFFFF rest (by norm_num)]
    congr 2
    norm_num
    omega
  · norm_num at hdiv hbyte
    have hne : (p >>> 16) % 256 &&& 0x80 ≠ 0 := by
      rw [Nat.shiftRight_eq_div_pow, and_80_char]
      norm_num
      omega
    rw [show bePayload p 3 = (p >>> 16) % 256 :: bePayload p 2 from rfl, List.cons_append,
      decodeNumericSigned_cons, if_pos hne, ← List.cons_append,
      show ((p >>> 16) % 256 :: bePayload p 2) = bePayload p 3 from rfl,
      readBEOr_bePayload 32 (by norm_num) 3 p 0xFFFFFFFF rest (by norm_num)]
    congr 2
    norm_num
    omega
  · norm_num at hdiv hbyte
    have hne : (p >>> 24) % 256 &&& 0x80 ≠ 0 := by
      rw [Nat.shiftRight_eq_div_pow, and_80_char]
      norm_num
      omega
    rw [show bePayload p 4 = (p >>> 24) % 256 :: bePayload p 3 from rfl, List.cons_append,
      decodeNumericSigned_cons, if_pos hne, ← List.cons_append,
      show ((p >>> 24) % 256 :: bePayload p 3) = bePayload p 4 from rfl,
      readBEOr_bePayload 32 (by norm_num) 4 p 0xFFFFFFFF rest (by norm_num)]
    congr 2
    norm_num
    omega

/-- C1 payload lemma for IntegerBER: `setValue` then `encode` then
`decodeNumeric<int32_t>` restores the stored bit pattern. -/
theorem int_roundtrip (p : Nat) (hp : p < 4294967296) (rest : List Nat) :
    decodeNumericSigned (intLen p) (intPayload p (intLen p) ++ rest) = some (p, rest) := by
  by_cases hneg : p &&& 0x80000000 = 0
  · have hlen : intLen p = setPositiveLen p := by
      unfold intLen
      rw [if_pos hneg]
    rw [hlen, intPayload_nonneg p _ hneg]
    obtain ⟨k, hk⟩ : ∃ k, setPositiveLen p = k + 1 :=
      ⟨setPositiveLen p - 1, by have := setPositiveLen_pos p; omega⟩
    have hbound := setPositiveLen_bound p
    rw [hk] at hbound
    have hdb : p >>> (k * 8) < 128 := by
      rw [Nat.shiftRight_eq_div_pow]
      apply Nat.div_lt_of_lt_mul
      calc p < 2 ^ (8 * (k + 1) - 1) := hbound
        _ = 2 ^ (k * 8) * 128 := by
            rw [show 8 * (k + 1) - 1 = k * 8 + 7 from by omega, pow_add]
            norm_num
    have hb0 : (p >>> (k * 8)) % 256 &&& 0x80 = 0 := by
      rw [Nat.mod_eq_of_lt (by omega), and_80_char, Nat.shiftRight_eq_div_pow]
      have hdb2 : p / 2 ^ (k * 8) / 128 = 0 := by
        apply Nat.div_eq_of_lt
        rw [← Nat.shiftRight_eq_div_pow]
        exact hdb
      rw [hdb2]
    have hlt256 : p < 256 ^ (k + 1) := by
      have hb2 : (2 : Nat) ^ (8 * (k + 1) - 1) ≤ 256 ^ (k + 1) := by
        rw [show (256 : Nat) = 2 ^ 8 by norm_num, ← pow_mul]
        exact Nat.pow_le_pow_right (by omega) (by omega)
      omega
    rw [hk, bePayload_succ, List.cons_append, decodeNumericSigned_cons,
      if_neg (by simp [hb0]), ← List.cons_append, ← bePayload_succ,
      readBEOr_bePayload 32 (by norm_num) (k + 1) p 0 rest (by norm_num)]
    rw [Nat.zero_mul, Nat.zero_add, Nat.mod_eq_of_lt hlt256,
      Nat.mod_eq_of_lt (show p < 2 ^ 32 from by norm_num; omega)]
  · have hbit31 : 2147483648 ≤ p := by
      rw [and_sign_char] at hneg
      omega
    have e16 : asr32 p 16 &&& 0xFF80 = (p / 8388608 % 512) * 128 := by
      unfold asr32
      rw [if_neg hneg, Nat.and_distrib_right,
        show ((2 : Nat) ^ 16 - 1) <<< (32 - 16) &&& 0xFF80 = 0 by decide,
        Nat.or_zero, and_FF80_char, Nat.shiftRight_eq_div_pow]
      norm_num [Nat.div_div_eq_div_mul]
    have e8 : asr32 p 8 &&& 0xFF80 = (p / 32768 % 512) * 128 := by
      unfold asr32
      rw [if_neg hneg, Nat.and_distrib_right,
        show ((2 : Nat) ^ 8 - 1) <<< (32 - 8) &&& 0xFF80 = 0 by decide,
        Nat.or_zero, and_FF80_char, Nat.shiftRight_eq_div_pow]
      norm_num [Nat.div_div_eq_div_mul]
    have e0 : p &&& 0xFF80 = (p / 128 % 512) * 128 := and_FF80_char p
    by_cases h16 : p / 8388608 % 512 = 511
    · have h16' : p / 8388608 = 511 := by omega
      by_cases h8 : p / 32768 % 512 = 511
      · by_cases h0 : p / 128 % 512 = 511
        · have hlen : intLen p = 1 := by
            unfold intLen
            rw [if_neg hneg, if_neg (by rw [e16]; omega), if_neg (by rw [e8]; omega),
              if_neg (by rw [e0]; omega)]
          rw [hlen, intPayload_le4 p 1 (by norm_num)]
          exact intNeg_decode 1 p rest hp (by norm_num) (by norm_num)
            (by norm_num; omega) (by norm_num; omega)
        · have hlen : intLen p = 2 := by
            unfold intLen
            rw [if_neg hneg, if_neg (by rw [e16]; omega), if_neg (by rw [e8]; omega),
              if_pos (by rw [e0]; omega)]
          rw [hlen, intPayload_le4 p 2 (by norm_num)]
          exact intNeg_decode 2 p rest hp (by norm_num) (by norm_num)
            (by norm_num; omega) (by norm_num; omega)
      · have hlen : intLen p = 3 := by
          unfold intLen
          rw [if_neg hneg, if_neg (by rw [e16]; omega), if_pos (by rw [e8]; omega)]
        rw [hlen, intPayload_le4 p 3 (by norm_num)]
        exact intNeg_decode 3 p rest hp (by norm_num) (by norm_num)
          (by norm_num; omega) (by norm_num; omega)
    · have hlen : intLen p = 4 := by
        unfold intLen
        rw [if_neg hneg, if_pos (by rw [e16]; omega)]
      rw [hlen, intPayload_le4 p 4 (by norm_num)]
      exact intNeg_decode 4 p rest hp (by norm_num) (by norm_num)
        (by norm_num; omega) (by norm_num; omega)

/-- One complete 7-bit group through the `ObjectIdentifierBER::decode` byte
loop: starting at a group boundary (or mid-accumulation with `acc`), the
loop consumes the group's bytes and appends the reassembled sub-identifier. -/
theorem oidGroup_aux : ∀ k s accOpt rem comps rest,
    s < 2 ^ (7 * (k + 1)) →
    accOpt.getD 0 * 2 ^ (7 * (k + 1)) + s < 4294967296 →
    oidDecodeLoop (k + 1 + rem) accOpt comps (encode7bits s (k + 1) ++ rest) =
      oidDecodeLoop rem none (comps ++ [accOpt.getD 0 * 2 ^ (7 * (k + 1)) + s]) rest := by
  intro k
  induction k with
  | zero =>
    intro s accOpt rem comps rest hs hbound
    norm_num at hs hbound
    rw [encode7bits_succ, encode7bits_zero]
    simp only [ne_eq, not_true_eq_false, if_false, Nat.mul_zero, Nat.shiftRight_zero,
      Nat.or_zero, List.cons_append, List.nil_append]
    have hb : s &&& 0x7F = s := by
      rw [show (0x7F : Nat) = 2 ^ 7 - 1 by norm_num, Nat.and_pow_two_sub_one_eq_mod,
        Nat.mod_eq_of_lt (by omega)]
    have h80 : s &&& 0x80 = 0 := by
      rw [show (0x80 : Nat) = 2 ^ 7 by norm_num]
      exact and_two_pow_of_lt (by omega)
    rw [show 0 + 1 + rem = rem + 1 from by omega]
    simp only [oidDecodeLoop, h80, ne_eq, not_true_eq_false, if_false, hb]
    have ha7 : accOpt.getD 0 <<< 7 % 4294967296 = accOpt.getD 0 * 128 := by
      rw [Nat.shiftLeft_eq, show (2 : Nat) ^ 7 = 128 by norm_num]
      exact Nat.mod_eq_of_lt (by omega)
    rw [ha7, Nat.mod_eq_of_lt (by omega)]
    norm_num
  | succ k ih =>
    intro s accOpt rem comps rest hs hbound
    rw [encode7bits_succ]
    simp only [ne_eq, Nat.succ_ne_zero, not_false_eq_true, if_true, List.cons_append]
    have hsr : s >>> (7 * (k + 1)) = s / 2 ^ (7 * (k + 1)) :=
      Nat.shiftRight_eq_div_pow s (7 * (k + 1))
    have hdivlt : s / 2 ^ (7 * (k + 1)) < 2 ^ 7 := by
      rw [Nat.div_lt_iff_lt_mul (Nat.pos_pow_of_pos _ (by omega)), ← pow_add,
        show 7 + 7 * (k + 1) = 7 * (k + 1 + 1) from by ring]
      exact hs
    have hand7F : (s >>> (7 * (k + 1))) &&& 0x7F = s / 2 ^ (7 * (k + 1)) := by
      rw [show (0x7F : Nat) = 2 ^ 7 - 1 by norm_num, Nat.and_pow_two_sub_one_eq_mod, hsr,
        Nat.mod_eq_of_lt hdivlt]
    rw [show k + 1 + 1 + rem = (k + 1 + rem) + 1 from by omega]
    have hcont : (((s >>> (7 * (k + 1))) &&& 0x7F) ||| 0x80) &&& 0x80 ≠ 0 := by
      rw [byte_or_0x80_and]
      norm_num
    simp only [oidDecodeLoop, hcont, ne_eq, not_false_eq_true, if_true]
    have hb7F : (((s >>> (7 * (k + 1))) &&& 0x7F) ||| 0x80) &&& 0x7F = s / 2 ^ (7 * (k + 1)) := by
      rw [Nat.and_distrib_right, show (0x80 : Nat) &&& 0x7F = 0 by decide, Nat.or_zero,
        Nat.and_assoc, show (0x7F : Nat) &&& 0x7F = 0x7F by decide, hand7F]
    have hmul : accOpt.getD 0 * 128 ≤ accOpt.getD 0 * 2 ^ (7 * (k + 1 + 1)) := by
      apply Nat.mul_le_mul_left
      calc (128 : Nat) = 2 ^ 7 := by norm_num
        _ ≤ 2 ^ (7 * (k + 1 + 1)) := Nat.pow_le_pow_right (by omega) (by omega)
    have ha7 : accOpt.getD 0 <<< 7 % 4294967296 = accOpt.getD 0 * 128 := by
      rw [Nat.shiftLeft_eq, show (2 : Nat) ^ 7 = 128 by norm_num]
      exact Nat.mod_eq_of_lt (by omega)
    have hpow : (2 : Nat) ^ (7 * (k + 1 + 1)) = 2 ^ 7 * 2 ^ (7 * (k + 1)) := by
      rw [← pow_add]
      ring_nf
    have hdm : 2 ^ (7 * (k + 1)) * (s / 2 ^ (7 * (k + 1))) + s % 2 ^ (7 * (k + 1)) = s :=
      Nat.div_add_mod _ _
    have hacc' : (accOpt.getD 0 * 128 + s / 2 ^ (7 * (k + 1))) * 2 ^ (7 * (k + 1))
        + s % 2 ^ (7 * (k + 1)) = accOpt.getD 0 * 2 ^ (7 * (k + 1 + 1)) + s := by
      rw [Nat.add_mul, hpow, show (2 : Nat) ^ 7 = 128 by norm_num]
      ring_nf
      ring_nf at hdm
      omega
    have haccbound : accOpt.getD 0 * 128 + s / 2 ^ (7 * (k + 1)) < 4294967296 := by
      have h1 : (accOpt.getD 0 * 128 + s / 2 ^ (7 * (k + 1))) * 2 ^ (7 * (k + 1))
          ≤ accOpt.getD 0 * 2 ^ (7 * (k + 1 + 1)) + s := by omega
      have h2 : 1 ≤ 2 ^ (7 * (k + 1)) := Nat.one_le_two_pow
      have h3 := Nat.le_of_lt_succ (Nat.lt_succ_of_lt hbound)
      calc accOpt.getD 0 * 128 + s / 2 ^ (7 * (k + 1))
          ≤ (accOpt.getD 0 * 128 + s / 2 ^ (7 * (k + 1))) * 2 ^ (7 * (k + 1)) :=
            Nat.le_mul_of_pos_right _ (by omega)
        _ ≤ accOpt.getD 0 * 2 ^ (7 * (k + 1 + 1)) + s := h1
        _ < 4294967296 := hbound
    rw [ha7, hb7F, Nat.mod_eq_of_lt (by omega)]
    rw [← encode7bits_mod s (k + 1)]
    have hmodlt : s % 2 ^ (7 * (k + 1)) < 2 ^ (7 * (k + 1)) :=
      Nat.mod_lt _ (Nat.pos_pow_of_pos _ (by omega))
    have hrec := ih (s % 2 ^ (7 * (k + 1)))
      (some (accOpt.getD 0 * 128 + s / 2 ^ (7 * (k + 1)))) rem comps rest hmodlt
      (by simp only [Option.getD_some]; omega)
    simp only [Option.getD_some] at hrec
    rw [hrec, hacc']

/-- The OID byte loop over a whole component list: each component's 7-bit
groups reassemble in order. -/
theorem oidDecodeLoop_groups : ∀ (comps : List Nat) (acc : List Nat) (bytesRest : List Nat),
    (∀ x ∈ comps, x < 4294967296) →
    oidDecodeLoop ((comps.map groups7).sum) none acc
      (comps.flatMap (fun s => encode7bits s (groups7 s)) ++ bytesRest) =
      some (acc ++ comps, bytesRest) := by
  intro comps
  induction comps with
  | nil =>
    intro acc bytesRest _
    simp [oidDecodeLoop]
  | cons s comps ih =>
    intro acc bytesRest hlt
    obtain ⟨k, hk⟩ : ∃ k, groups7 s = k + 1 :=
      ⟨groups7 s - 1, by have := groups7_pos s; omega⟩
    have hsb : s < 2 ^ (7 * (k + 1)) := by
      rw [← hk]
      exact groups7_bound s
    simp only [List.map_cons, List.sum_cons, List.flatMap_cons, List.append_assoc, hk]
    have hgrp := oidGroup_aux k s none ((comps.map groups7).sum) acc
      (comps.flatMap (fun x => encode7bits x (groups7 x)) ++ bytesRest) hsb
      (by simp only [Option.getD_none, Nat.zero_mul, Nat.zero_add]
          exact hlt s (by simp))
    simp only [Option.getD_none, Nat.zero_mul, Nat.zero_add] at hgrp
    rw [hgrp, ih (acc ++ [s]) bytesRest (fun x hx => hlt x (by simp [hx]))]
    simp

/-- A single-byte type value encodes to exactly its own byte. -/
theorem tyEncode_byte (t : Nat) (ht : t < 256) : tyEncode (setType t) = [t] := by
  have hb : bytesOf t = 1 := by
    rw [bytesOf_eq, if_pos ht]
  have hset : setType t = ⟨t &&& 0xC0, t &&& 0x20, t &&& 0x1F, 1, t⟩ := by
    unfold setType
    simp [hb]
  rw [hset]
  unfold tyEncode
  simp only [if_pos rfl]
  have hor : ((t &&& 0xC0) ||| (t &&& 0x20)) ||| (t &&& 0x1F) = t &&& 0xFF := by
    rw [← Nat.and_or_distrib_left, ← Nat.and_or_distrib_left,
      show (192 ||| 32 ||| 31 : Nat) = 255 by decide]
  rw [hor, show (0xFF : Nat) = 2 ^ 8 - 1 by norm_num, Nat.and_pow_two_sub_one_eq_mod,
    show (2 : Nat) ^ 8 = 256 by norm_num, Nat.mod_mod_of_dvd t (dvd_refl 256),
    Nat.mod_eq_of_lt ht]
  exact if_pos trivial

/-- An Opaque Float tag (0x9F78) encodes to its two bytes and decodes back. -/
theorem tyDecode_encode_9F78 (rest : List Nat) :
    tyDecode (tyEncode (setType 0x9F78) ++ rest) =
      some (⟨0x80, 0, 0x78, 2, 0x9F78⟩, rest) := rfl

theorem tyDecode_encode_byte (t : Nat) (ht : t < 256) (hlow : t &&& 0x1F ≠ 0x1F)
    (rest : List Nat) :
    tyDecode (tyEncode (setType t) ++ rest) =
      some (⟨t &&& 0xC0, t &&& 0x20, t &&& 0x1F, 1, t⟩, rest) := by
  rw [tyEncode_byte t ht, List.singleton_append]
  exact tyDecode_short t hlow rest

theorem objLength_lt_objSize (o : Obj) : objLength o + 2 ≤ objSize o := by
  rw [objSize_def]
  have h1 := setType_size_pos (tagOf o)
  have h2 := setLength_size_pos (objLength o)
  omega

theorem decodeTyped_cons (fuel tv n : Nat) (hn : n ≤ 127) (body : List Nat) :
    decodeTyped (fuel + 1) tv (n :: body) =
      decodeTypedBody (decodeChildren fuel) (decodeOpaqueInner fuel) tv ⟨n, 1⟩ body := by
  show (match lengthDecode (n :: body) with
    | none => none
    | some (len, r1) =>
        decodeTypedBody ((decoders fuel).2.2.1) ((decoders fuel).2.2.2) tv len r1) =
    decodeTypedBody (decodeChildren fuel) (decodeOpaqueInner fuel) tv ⟨n, 1⟩ body
  rw [lengthDecode_short n hn]
  rfl

theorem body_integer (cF : Nat → Nat → List Nat → Option (List Obj × Nat × List Nat))
    (oF : Nat → List Nat → Option (Obj × List Nat)) (n : Nat) (r1 : List Nat) :
    decodeTypedBody cF oF 0x02 ⟨n, 1⟩ r1 =
      match decodeNumericSigned n r1 with
      | some (v, r2) => some (.integer v, (setType 0x02).size + 1 + n, r2)
      | none => none := rfl

theorem body_octet (cF : Nat → Nat → List Nat → Option (List Obj × Nat × List Nat))
    (oF : Nat → List Nat → Option (Obj × List Nat)) (n : Nat) (r1 : List Nat) :
    decodeTypedBody cF oF 0x04 ⟨n, 1⟩ r1 =
      match readN n r1 with
      | some (payload, r2) => some (.octetString payload, (setType 0x04).size + 1 + n, r2)
      | none => none := rfl

theorem body_oid (cF : Nat → Nat → List Nat → Option (List Obj × Nat × List Nat))
    (oF : Nat → List Nat → Option (Obj × List Nat)) (n : Nat) (r1 : List Nat) :
    decodeTypedBody cF oF 0x06 ⟨n + 1, 1⟩ r1 =
      match r1 with
      | [] => none
      | b :: r2 =>
          match oidDecodeLoop n none [b / 40, b % 40] r2 with
          | some (comps, r3) => some (.oid comps, (setType 0x06).size + 1 + (n + 1), r3)
          | none => none := rfl

theorem body_ip (cF : Nat → Nat → List Nat → Option (List Obj × Nat × List Nat))
    (oF : Nat → List Nat → Option (Obj × List Nat)) (n : Nat) (r1 : List Nat) :
    decodeTypedBody cF oF 0x40 ⟨n, 1⟩ r1 =
      match readN n r1 with
      | some (payload, r2) => some (.ipAddress payload, (setType 0x40).size + 1 + n, r2)
      | none => none := rfl

theorem body_counter32 (cF : Nat → Nat → List Nat → Option (List Obj × Nat × List Nat))
    (oF : Nat → List Nat → Option (Obj × List Nat)) (n : Nat) (r1 : List Nat) :
    decodeTypedBody cF oF 0x41 ⟨n, 1⟩ r1 =
      match decodeNumericUnsigned 32 n r1 with
      | some (v, r2) => some (.counter32 v, (setType 0x41).size + 1 + n, r2)
      | none => none := rfl

theorem body_gauge32 (cF : Nat → Nat → List Nat → Option (List Obj × Nat × List Nat))
    (oF : Nat → List Nat → Option (Obj × List Nat)) (n : Nat) (r1 : List Nat) :
    decodeTypedBody cF oF 0x42 ⟨n, 1⟩ r1 =
      match decodeNumericUnsigned 32 n r1 with
      | some (v, r2) => some (.gauge32 v, (setType 0x42).size + 1 + n, r2)
      | none => none := rfl

theorem body_timeTicks (cF : Nat → Nat → List Nat → Option (List Obj × Nat × List Nat))
    (oF : Nat → List Nat → Option (Obj × List Nat)) (n : Nat) (r1 : List Nat) :
    decodeTypedBody cF oF 0x43 ⟨n, 1⟩ r1 =
      match decodeNumericUnsigned 32 n r1 with
      | some (v, r2) => some (.timeTicks v, (setType 0x43).size + 1 + n, r2)
      | none => none := rfl

theorem body_counter64 (cF : Nat → Nat → List Nat → Option (List Obj × Nat × List Nat))
    (oF : Nat → List Nat → Option (Obj × List Nat)) (n : Nat) (r1 : List Nat) :
    decodeTypedBody cF oF 0x46 ⟨n, 1⟩ r1 =
      match decodeNumericUnsigned 64 n r1 with
      | some (v, r2) => some (.counter64 v, (setType 0x46).size + 1 + n, r2)
      | none => none := rfl

theorem body_float (cF : Nat → Nat → List Nat → Option (List Obj × Nat × List Nat))
    (oF : Nat → List Nat → Option (Obj × List Nat)) (n : Nat) (r1 : List Nat) :
    decodeTypedBody cF oF 0x48 ⟨n, 1⟩ r1 =
      match decodeNumericUnsigned 32 n r1 with
      | some (v, r2) => some (.floatV v, (setType 0x48).size + 1 + n, r2)
      | none => none := rfl

theorem body_opFloat (cF : Nat → Nat → List Nat → Option (List Obj × Nat × List Nat))
    (oF : Nat → List Nat → Option (Obj × List Nat)) (n : Nat) (r1 : List Nat) :
    decodeTypedBody cF oF 0x9F78 ⟨n, 1⟩ r1 =
      match decodeNumericUnsigned 32 n r1 with
      | some (v, r2) => some (.opaqueFloat v, (setType 0x9F78).size + 1 + n, r2)
      | none => none := rfl

theorem body_opaqueInner (cF : Nat → Nat → List Nat → Option (List Obj × Nat × List Nat))
    (oF : Nat → List Nat → Option (Obj × List Nat)) (n : Nat) (r1 : List Nat) :
    decodeTypedBody cF oF 0x44 ⟨n + 1, 1⟩ r1 =
      match oF (n + 1) r1 with
      | some (inner, r2) => some (.opaqueW inner, (setType 0x44).size + 1 + (n + 1), r2)
      | none => none := rfl

theorem body_seq (cF : Nat → Nat → List Nat → Option (List Obj × Nat × List Nat))
    (oF : Nat → List Nat → Option (Obj × List Nat)) (t n : Nat)
    (ht : t = 0x30 ∨ (0xA0 ≤ t ∧ t ≤ 0xA8)) (r1 : List Nat) :
    decodeTypedBody cF oF t ⟨n + 1, 1⟩ r1 =
      match cF (n + 1) 0 r1 with
      | some (cs, accLen, r2) =>
          some (.seq t cs, (setType t).size + (setLength accLen).size + accLen, r2)
      | none => none := by
  rcases ht with h | h
  · subst h
    rfl
  · obtain ⟨h1, h2⟩ := h
    simp only [decodeTypedBody]
    have c1 : ¬(t = 0x01) := by omega
    have c2 : ¬(t = 0x02) := by omega
    have c3 : ¬(t = 0x04) := by omega
    have c4 : ¬(t = 0x05 ∨ t = 0x80 ∨ t = 0x81 ∨ t = 0x82) := by omega
    have c5 : ¬(t = 0x06) := by omega
    have c6 : ¬(t = 0x40) := by omega
    have c7 : ¬(t = 0x41) := by omega
    have c8 : ¬(t = 0x42) := by omega
    have c9 : ¬(t = 0x43) := by omega
    have c10 : ¬(t = 0x46) := by omega
    have c11 : ¬(t = 0x48) := by omega
    have c12 : ¬(t = 0x9F78) := by omega
    have c13 : ¬(t = 0x44) := by omega
    rw [if_neg c1, if_neg c2, if_neg c3, if_neg c4, if_neg c5, if_neg c6, if_neg c7,
      if_neg c8, if_neg c9, if_neg c10, if_neg c11, if_neg c12, if_neg c13,
      if_pos (Or.inr ⟨h1, h2⟩), if_neg (by omega)]

theorem body_seq_zero (cF : Nat → Nat → List Nat → Option (List Obj × Nat × List Nat))
    (oF : Nat → List Nat → Option (Obj × List Nat)) (t : Nat)
    (ht : t = 0x30 ∨ (0xA0 ≤ t ∧ t ≤ 0xA8)) (r1 : List Nat) :
    decodeTypedBody cF oF t ⟨0, 1⟩ r1 =
      some (.seq t [], (setType t).size + 1, r1) := by
  rcases ht with h | h
  · subst h
    rfl
  · obtain ⟨h1, h2⟩ := h
    simp only [decodeTypedBody]
    have c1 : ¬(t = 0x01) := by omega
    have c2 : ¬(t = 0x02) := by omega
    have c3 : ¬(t = 0x04) := by omega
    have c4 : ¬(t = 0x05 ∨ t = 0x80 ∨ t = 0x81 ∨ t = 0x82) := by omega
    have c5 : ¬(t = 0x06) := by omega
    have c6 : ¬(t = 0x40) := by omega
    have c7 : ¬(t = 0x41) := by omega
    have c8 : ¬(t = 0x42) := by omega
    have c9 : ¬(t = 0x43) := by omega
    have c10 : ¬(t = 0x46) := by omega
    have c11 : ¬(t = 0x48) := by omega
    have c12 : ¬(t = 0x9F78) := by omega
    have c13 : ¬(t = 0x44) := by omega
    rw [if_neg c1, if_neg c2, if_neg c3, if_neg c4, if_neg c5, if_neg c6, if_neg c7,
      if_neg c8, if_neg c9, if_neg c10, if_neg c11, if_neg c12, if_neg c13,
      if_pos (Or.inr ⟨h1, h2⟩), if_pos trivial]

theorem dtBoolean (f : Nat) (v : Bool) (rest : List Nat) :
    decodeTyped (f + 1) (tagOf (.boolean v))
      (lengthEncode (setLength (objLength (.boolean v))) ++ (objValue (.boolean v) ++ rest)) =
      some (.boolean v, objSize (.boolean v), rest) := by
  cases v <;> rfl

theorem dtInteger (f p : Nat) (hp : p < 4294967296) (hsm : intLen p ≤ 127) (rest : List Nat) :
    decodeTyped (f + 1) (tagOf (.integer p))
      (lengthEncode (setLength (objLength (.integer p))) ++ (objValue (.integer p) ++ rest)) =
      some (.integer p, objSize (.integer p), rest) := by
  simp only [tagOf, objValue, objLength]
  rw [lengthEncode_short _ hsm, List.singleton_append, decodeTyped_cons f 0x02 _ hsm,
    body_integer, int_roundtrip p hp rest, objSize_short (Obj.integer p) hsm]
  rfl

theorem dtOctetString (f : Nat) (sv : List Nat) (hsm : sv.length ≤ 127) (rest : List Nat) :
    decodeTyped (f + 1) (tagOf (.octetString sv))
      (lengthEncode (setLength (objLength (.octetString sv))) ++
        (objValue (.octetString sv) ++ rest)) =
      some (.octetString sv, objSize (.octetString sv), rest) := by
  simp only [tagOf, objValue, objLength]
  rw [lengthEncode_short _ hsm, List.singleton_append, decodeTyped_cons f 0x04 _ hsm,
    body_octet, readN_append sv rest, objSize_short (Obj.octetString sv) hsm]
  rfl

theorem dtNullTag (f t : Nat) (ht : t = 0x05 ∨ t = 0x80 ∨ t = 0x81 ∨ t = 0x82)
    (rest : List Nat) :
    decodeTyped (f + 1) (tagOf (.nullTag t))
      (lengthEncode (setLength (objLength (.nullTag t))) ++ (objValue (.nullTag t) ++ rest)) =
      some (.nullTag t, objSize (.nullTag t), rest) := by
  rcases ht with rfl | rfl | rfl | rfl <;> rfl

theorem dtOid (f a b : Nat) (comps : List Nat) (hb : b < 40) (hab : 40 * a + b < 256)
    (hcomps : ∀ x ∈ comps, x < 4294967296)
    (hsm : oidLen (a :: b :: comps) ≤ 127) (rest : List Nat) :
    decodeTyped (f + 1) (tagOf (.oid (a :: b :: comps)))
      (lengthEncode (setLength (objLength (.oid (a :: b :: comps)))) ++
        (objValue (.oid (a :: b :: comps)) ++ rest)) =
      some (.oid (a :: b :: comps), objSize (.oid (a :: b :: comps)), rest) := by
  have hlen : oidLen (a :: b :: comps) = (comps.map groups7).sum + 1 := by
    simp only [oidLen]
    omega
  simp only [tagOf, objValue, objLength]
  rw [lengthEncode_short _ hsm, List.singleton_append, hlen, decodeTyped_cons f 0x06 _
    (by omega), body_oid]
  simp only [oidPayload, List.cons_append]
  rw [show (40 * a + b) % 256 = 40 * a + b from Nat.mod_eq_of_lt hab,
    show (40 * a + b) / 40 = a from by omega, show (40 * a + b) % 40 = b from by omega,
    oidDecodeLoop_groups comps [a, b] rest hcomps,
    objSize_short (Obj.oid (a :: b :: comps)) hsm]
  simp only [objLength, tagOf, hlen]
  rfl

theorem dtIpAddress (f : Nat) (sv : List Nat) (h4 : sv.length = 4) (rest : List Nat) :
    decodeTyped (f + 1) (tagOf (.ipAddress sv))
      (lengthEncode (setLength (objLength (.ipAddress sv))) ++
        (objValue (.ipAddress sv) ++ rest)) =
      some (.ipAddress sv, objSize (.ipAddress sv), rest) := by
  simp only [tagOf, objValue, objLength]
  rw [lengthEncode_short 4 (by omega), List.singleton_append, decodeTyped_cons f 0x40 4
    (by omega), body_ip, ← h4, readN_append sv rest, h4]
  rfl

theorem dtCounter32 (f v : Nat) (hv : v < 4294967296) (hsm : setPositiveLen v ≤ 127)
    (rest : List Nat) :
    decodeTyped (f + 1) (tagOf (.counter32 v))
      (lengthEncode (setLength (objLength (.counter32 v))) ++
        (objValue (.counter32 v) ++ rest)) =
      some (.counter32 v, objSize (.counter32 v), rest) := by
  simp only [tagOf, objValue, objLength]
  rw [lengthEncode_short _ hsm, List.singleton_append, decodeTyped_cons f 0x41 _ hsm,
    body_counter32,
    unsigned_roundtrip 32 v (by norm_num) (by norm_num; omega) rest,
    objSize_short (Obj.counter32 v) hsm]
  rfl

theorem dtGauge32 (f v : Nat) (hv : v < 4294967296) (hsm : setPositiveLen v ≤ 127)
    (rest : List Nat) :
    decodeTyped (f + 1) (tagOf (.gauge32 v))
      (lengthEncode (setLength (objLength (.gauge32 v))) ++ (objValue (.gauge32 v) ++ rest)) =
      some (.gauge32 v, objSize (.gauge32 v), rest) := by
  simp only [tagOf, objValue, objLength]
  rw [lengthEncode_short _ hsm, List.singleton_append, decodeTyped_cons f 0x42 _ hsm,
    body_gauge32,
    unsigned_roundtrip 32 v (by norm_num) (by norm_num; omega) rest,
    objSize_short (Obj.gauge32 v) hsm]
  rfl

theorem dtTimeTicks (f v : Nat) (hv : v < 4294967296) (hsm : setPositiveLen v ≤ 127)
    (rest : List Nat) :
    decodeTyped (f + 1) (tagOf (.timeTicks v))
      (lengthEncode (setLength (objLength (.timeTicks v))) ++
        (objValue (.timeTicks v) ++ rest)) =
      some (.timeTicks v, objSize (.timeTicks v), rest) := by
  simp only [tagOf, objValue, objLength]
  rw [lengthEncode_short _ hsm, List.singleton_append, decodeTyped_cons f 0x43 _ hsm,
    body_timeTicks,
    unsigned_roundtrip 32 v (by norm_num) (by norm_num; omega) rest,
    objSize_short (Obj.timeTicks v) hsm]
  rfl

theorem dtCounter64 (f v : Nat) (hv : v < 18446744073709551616) (hsm : setPositiveLen v ≤ 127)
    (rest : List Nat) :
    decodeTyped (f + 1) (tagOf (.counter64 v))
      (lengthEncode (setLength (objLength (.counter64 v))) ++
        (objValue (.counter64 v) ++ rest)) =
      some (.counter64 v, objSize (.counter64 v), rest) := by
  simp only [tagOf, objValue, objLength]
  rw [lengthEncode_short _ hsm, List.singleton_append, decodeTyped_cons f 0x46 _ hsm,
    body_counter64,
    unsigned_roundtrip 64 v (by norm_num) (by norm_num; omega) rest,
    objSize_short (Obj.counter64 v) hsm]
  rfl

theorem dtFloat (f p : Nat) (hp : p < 4294967296) (rest : List Nat) :
    decodeTyped (f + 1) (tagOf (.floatV p))
      (lengthEncode (setLength (objLength (.floatV p))) ++ (objValue (.floatV p) ++ rest)) =
      some (.floatV p, objSize (.floatV p), rest) := by
  simp only [tagOf, objValue, objLength]
  rw [lengthEncode_short 4 (by omega), List.singleton_append, decodeTyped_cons f 0x48 4
    (by omega), body_float, fixed4_roundtrip p hp rest]
  rfl

theorem dtOpFloat (f p : Nat) (hp : p < 4294967296) (rest : List Nat) :
    decodeTyped (f + 1) (tagOf (.opaqueFloat p))
      (lengthEncode (setLength (objLength (.opaqueFloat p))) ++
        (objValue (.opaqueFloat p) ++ rest)) =
      some (.opaqueFloat p, objSize (.opaqueFloat p), rest) := by
  simp only [tagOf, objValue, objLength]
  rw [lengthEncode_short 4 (by omega), List.singleton_append, decodeTyped_cons f 0x9F78 4
    (by omega), body_opFloat, fixed4_roundtrip p hp rest]
  rfl

theorem tagOf_cases (o : Obj) (hwf : wfObj o = true) :
    tagOf o = 0x9F78 ∨ (tagOf o < 256 ∧ tagOf o &&& 0x1F ≠ 0x1F) := by
  cases o with
  | opaqueFloat p => exact Or.inl rfl
  | nullTag t =>
    simp only [wfObj, Bool.or_eq_true, decide_eq_true_eq] at hwf
    right
    simp only [tagOf]
    rcases hwf with ((rfl | rfl) | rfl) | rfl <;> exact ⟨by decide, by decide⟩
  | seq t cs =>
    simp only [wfObj, Bool.and_eq_true, Bool.or_eq_true, decide_eq_true_eq] at hwf
    right
    simp only [tagOf]
    have ht : t = 0x30 ∨ (0xA0 ≤ t ∧ t ≤ 0xA8) := hwf.1.1
    have hmod : t &&& 0x1F = t % 32 := by
      rw [show (0x1F : Nat) = 2 ^ 5 - 1 by norm_num, Nat.and_pow_two_sub_one_eq_mod]
    constructor
    · rcases ht with h | h <;> omega
    · rw [hmod]
      rcases ht with h | h <;> omega
  | boolean v =>
    right
    simp only [tagOf]
    exact ⟨by decide, by decide⟩
  | integer p =>
    right
    simp only [tagOf]
    exact ⟨by decide, by decide⟩
  | octetString s =>
    right
    simp only [tagOf]
    exact ⟨by decide, by decide⟩
  | oid s =>
    right
    simp only [tagOf]
    exact ⟨by decide, by decide⟩
  | ipAddress s =>
    right
    simp only [tagOf]
    exact ⟨by decide, by decide⟩
  | counter32 v =>
    right
    simp only [tagOf]
    exact ⟨by decide, by decide⟩
  | gauge32 v =>
    right
    simp only [tagOf]
    exact ⟨by decide, by decide⟩
  | timeTicks v =>
    right
    simp only [tagOf]
    exact ⟨by decide, by decide⟩
  | counter64 v =>
    right
    simp only [tagOf]
    exact ⟨by decide, by decide⟩
  | floatV p =>
    right
    simp only [tagOf]
    exact ⟨by decide, by decide⟩
  | opaqueW inner =>
    right
    simp only [tagOf]
    exact ⟨by decide, by decide⟩

theorem decodeChildren_step (fuel rem count : Nat) (bytes : List Nat) (o : Obj) (sz : Nat)
    (r2 : List Nat) (h : decodeAny fuel bytes = some (o, sz, r2)) :
    decodeChildren (fuel + 1) rem count bytes =
      if 0 < sz ∧ sz ≤ rem then
        if rem - sz = 0 then
          some (if count < 6 then [o] else [], if count < 6 then sz else 0, r2)
        else
          match decodeChildren fuel (rem - sz) (if count < 6 then count + 1 else count) r2 with
          | none => none
          | some (cs, accLen, r3) =>
              some (if count < 6 then o :: cs else cs, (if count < 6 then sz else 0) + accLen, r3)
      else none := by
  rw [decodeChildren_succ, h]

theorem decodeOpaqueInner_step (fuel rem : Nat) (bytes : List Nat) (o : Obj) (sz : Nat)
    (r2 : List Nat) (h : decodeAny fuel bytes = some (o, sz, r2)) :
    decodeOpaqueInner (fuel + 1) rem bytes =
      if 0 < sz ∧ sz ≤ rem then
        if rem - sz = 0 then some (o, r2) else decodeOpaqueInner fuel (rem - sz) r2
      else none := by
  rw [decodeOpaqueInner_succ, h]

/-- Round-trip property of `decodeAny` at a given fuel. -/
def RTAny (fuel : Nat) : Prop :=
  ∀ o rest, wfObj o = true → objLength o ≤ 127 → fuelObj o ≤ fuel →
    decodeAny fuel (objEncode o ++ rest) = some (o, objSize o, rest)

/-- Round-trip property of `decodeTyped` at a given fuel. -/
def RTTy (fuel : Nat) : Prop :=
  ∀ o rest, wfObj o = true → objLength o ≤ 127 → fuelObj o ≤ fuel + 1 →
    decodeTyped fuel (tagOf o)
      (lengthEncode (setLength (objLength o)) ++ (objValue o ++ rest)) =
      some (o, objSize o, rest)

/-- Round-trip property of `decodeChildren` at a given fuel. -/
def RTCh (fuel : Nat) : Prop :=
  ∀ cs count rest, cs ≠ [] → wfList cs = true → objListLength cs ≤ 127 →
    count + cs.length ≤ 6 → fuelList cs ≤ fuel →
    decodeChildren fuel (objListLength cs) count (objEncodeList cs ++ rest) =
      some (cs, objListLength cs, rest)

/-- Round-trip property of `decodeOpaqueInner` at a given fuel. -/
def RTOp (fuel : Nat) : Prop :=
  ∀ inner rest, wfObj inner = true → objLength inner ≤ 127 → fuelObj inner + 1 ≤ fuel →
    decodeOpaqueInner fuel (objSize inner) (objEncode inner ++ rest) = some (inner, rest)

/-- The mutual decode-of-encode induction over fuel: every well-formed
object whose payload lengths stay below 128 (the region where
`Length::encode` is correct) decodes back exactly, and the decoded
`getSize` equals the encoder's. -/
theorem RT_all : ∀ fuel, RTAny fuel ∧ RTTy fuel ∧ RTCh fuel ∧ RTOp fuel := by
  intro fuel
  induction fuel with
  | zero =>
    refine ⟨?_, ?_, ?_, ?_⟩
    · intro o rest _ _ hf
      have := fuelObj_ge_two o
      omega
    · intro o rest _ _ hf
      have := fuelObj_ge_two o
      omega
    · intro cs count rest hne _ _ _ hf
      cases cs with
      | nil => exact absurd rfl hne
      | cons c cs => simp [fuelList] at hf
    · intro inner rest _ _ hf
      omega
  | succ f ih =>
    obtain ⟨ihAny, ihTy, ihCh, ihOp⟩ := ih
    refine ⟨?_, ?_, ?_, ?_⟩
    · -- RTAny (f + 1)
      intro o rest hwf hsm hf
      rw [decodeAny_succ, objEncode_decomp o, List.append_assoc, List.append_assoc]
      rcases tagOf_cases o hwf with h97 | ⟨hlt, hlow⟩
      · rw [h97, tyDecode_encode_9F78]
        have hres := ihTy o rest hwf hsm hf
        rw [h97] at hres
        exact hres
      · rw [tyDecode_encode_byte _ hlt hlow]
        exact ihTy o rest hwf hsm hf
    · -- RTTy (f + 1)
      intro o rest hwf hsm hf
      cases o with
      | boolean v => exact dtBoolean f v rest
      | integer p =>
        simp only [wfObj, decide_eq_true_eq] at hwf
        exact dtInteger f p hwf hsm rest
      | octetString sv => exact dtOctetString f sv hsm rest
      | nullTag t =>
        simp only [wfObj, Bool.or_eq_true, decide_eq_true_eq] at hwf
        refine dtNullTag f t ?_ rest
        tauto
      | oid sv =>
        cases sv with
        | nil => rfl
        | cons a tl =>
          cases tl with
          | nil => simp [wfObj, wfOid] at hwf
          | cons b comps =>
            simp only [wfObj, wfOid, Bool.and_eq_true, decide_eq_true_eq,
              List.all_eq_true] at hwf
            obtain ⟨⟨hb, hab⟩, hcomps⟩ := hwf
            exact dtOid f a b comps hb hab
              (fun x hx => by simpa using hcomps x hx) hsm rest
      | ipAddress sv =>
        simp only [wfObj, decide_eq_true_eq] at hwf
        exact dtIpAddress f sv hwf rest
      | counter32 v =>
        simp only [wfObj, decide_eq_true_eq] at hwf
        exact dtCounter32 f v hwf hsm rest
      | gauge32 v =>
        simp only [wfObj, decide_eq_true_eq] at hwf
        exact dtGauge32 f v hwf hsm rest
      | timeTicks v =>
        simp only [wfObj, decide_eq_true_eq] at hwf
        exact dtTimeTicks f v hwf hsm rest
      | counter64 v =>
        simp only [wfObj, decide_eq_true_eq] at hwf
        exact dtCounter64 f v hwf hsm rest
      | floatV p =>
        simp only [wfObj, decide_eq_true_eq] at hwf
        exact dtFloat f p hwf rest
      | opaqueFloat p =>
        simp only [wfObj, decide_eq_true_eq] at hwf
        exact dtOpFloat f p hwf rest
      | opaqueW inner =>
        simp only [wfObj] at hwf
        rw [objLength_opaqueW] at hsm
        have hsmI : objLength inner ≤ 127 := by
          have := objLength_lt_objSize inner
          omega
        simp only [fuelObj] at hf
        simp only [tagOf, objValue]
        rw [objLength_opaqueW]
        obtain ⟨k, hk⟩ : ∃ k, objSize inner = k + 1 :=
          ⟨objSize inner - 1, by have := objSize_ge_two inner; omega⟩
        rw [lengthEncode_short _ hsm, List.singleton_append, hk,
          decodeTyped_cons f 0x44 _ (by omega), body_opaqueInner, ← hk,
          ihOp inner rest hwf hsmI (by omega)]
        have hsm0 : objLength (Obj.opaqueW inner) ≤ 127 := by
          rw [objLength_opaqueW]
          exact hsm
        rw [objSize_short (Obj.opaqueW inner) hsm0]
        rfl
      | seq t cs =>
        simp only [wfObj, Bool.and_eq_true, Bool.or_eq_true, decide_eq_true_eq] at hwf
        obtain ⟨⟨htor, hcnt⟩, hwl⟩ := hwf
        have ht : t = 0x30 ∨ (0xA0 ≤ t ∧ t ≤ 0xA8) := by tauto
        have hsm' : objListLength cs ≤ 127 := hsm
        simp only [fuelObj] at hf
        simp only [tagOf, objValue, objLength]
        by_cases hcs : cs = []
        · subst hcs
          rw [show objListLength [] = 0 from rfl, lengthEncode_short 0 (by omega),
            List.singleton_append, decodeTyped_cons f t 0 (by omega),
            body_seq_zero _ _ t ht]
          rfl
        · have hpos : 0 < objListLength cs := by
            cases cs with
            | nil => exact absurd rfl hcs
            | cons c cs' =>
              rw [objListLength_cons]
              have := objSize_ge_two c
              omega
          obtain ⟨n, hn⟩ : ∃ n, objListLength cs = n + 1 :=
            ⟨objListLength cs - 1, by omega⟩
          rw [lengthEncode_short _ hsm', List.singleton_append, hn,
            decodeTyped_cons f t _ (by omega), body_seq _ _ t n ht, ← hn,
            ihCh cs 0 rest hcs hwl hsm' (by omega) (by omega)]
          rfl
    · -- RTCh (f + 1)
      intro cs count rest hne hwl hsm hcnt hfl
      cases cs with
      | nil => exact absurd rfl hne
      | cons c cs' =>
        simp only [wfList, Bool.and_eq_true] at hwl
        obtain ⟨hwc, hwl'⟩ := hwl
        have hsz := objSize_ge_two c
        have hsmC : objLength c ≤ 127 := by
          have := objLength_lt_objSize c
          rw [objListLength_cons] at hsm
          omega
        simp only [fuelList] at hfl
        have h6 : count < 6 := by
          simp only [List.length_cons] at hcnt
          omega
        rw [show objEncodeList (c :: cs') = objEncode c ++ objEncodeList cs' from rfl,
          List.append_assoc, objListLength_cons,
          decodeChildren_step f (objSize c + objListLength cs') count _ c (objSize c) _
            (ihAny c (objEncodeList cs' ++ rest) hwc hsmC (by omega))]
        rw [if_pos (show 0 < objSize c ∧ objSize c ≤ objSize c + objListLength cs' by omega)]
        by_cases hcs' : cs' = []
        · subst hcs'
          rw [show objListLength ([] : List Obj) = 0 from rfl]
          rw [if_pos (by omega)]
          simp only [if_pos h6]
          rfl
        · have hpos' : 0 < objListLength cs' := by
            cases cs' with
            | nil => exact absurd rfl hcs'
            | cons d ds =>
              rw [objListLength_cons]
              have := objSize_ge_two d
              omega
          rw [if_neg (by omega),
            show objSize c + objListLength cs' - objSize c = objListLength cs' from by omega]
          simp only [if_pos h6]
          rw [ihCh cs' (count + 1) rest hcs' hwl'
            (by rw [objListLength_cons] at hsm; omega)
            (by simp only [List.length_cons] at hcnt; omega) (by omega)]
    · -- RTOp (f + 1)
      intro inner rest hwf hsm hfo
      rw [decodeOpaqueInner_step f (objSize inner) _ inner (objSize inner) _
        (ihAny inner rest hwf hsm (by omega))]
      rw [if_pos (show 0 < objSize inner ∧ objSize inner ≤ objSize inner by
        have := objSize_ge_two inner; omega)]
      rw [if_pos (by omega)]

/-- Well-formedness of a user-built `Message`: every field the selected PDU
kind encodes fits the C++ type `Message::parse` reads it back into, the PDU
type is one the decoder's sequence dispatch accepts, and the VarBind list
fits the capacity-6 array. -/
def wfMsg (m : Msg) : Bool :=
  decide (m.version < 256) &&
  (decide (0xA0 ≤ m.type) && decide (m.type ≤ 0xA8)) &&
  (if m.type = 0xA4 then
    wfOid m.trapEnterprise && decide (m.trapAgentAddr.length = 4) &&
      decide (m.trapGenericTrap < 256) && decide (m.trapSpecificTrap < 256)
  else if m.type = 0xA5 then
    decide (m.requestID < 4294967296) && decide (m.nonRepeaters < 256) &&
      decide (m.maxRepetitions < 256)
  else
    decide (m.requestID < 4294967296) && decide (m.errorStatus < 256) &&
      decide (m.errorIndex < 256)) &&
  decide (m.varBindList.length ≤ 6) &&
  m.varBindList.all (fun vb => wfOid vb.1 && wfObj vb.2)

/-- What `Message::parse` recovers from `Message::build`'s output: every
field as stored — except the trap timestamp, which is the `millis() / 10`
clock value the build wrote, not the stored `_timeStamp`. -/
def expectedParsed (m : Msg) (now : Nat) : Parsed :=
  { version := m.version, community := m.community, type := m.type,
    pdu :=
      if m.type = 0xA4 then
        .trap m.trapEnterprise m.trapAgentAddr m.trapGenericTrap m.trapSpecificTrap now
      else if m.type = 0xA5 then
        .bulk m.requestID m.nonRepeaters m.maxRepetitions
      else
        .generic m.requestID m.errorStatus m.errorIndex,
    varBinds := m.varBindList }

theorem parseVarBind_varBindObj (vb : List Nat × Obj) :
    parseVarBind (varBindObj vb) = some vb := rfl

theorem mapM_parseVarBind (vbs : List (List Nat × Obj)) :
    List.mapM parseVarBind (vbs.map varBindObj) = some vbs := by
  induction vbs with
  | nil => rfl
  | cons vb vbs ih =>
    rw [List.map_cons, List.mapM_cons, parseVarBind_varBindObj, ih]
    rfl

theorem wfList_map_varBind (vbs : List (List Nat × Obj))
    (hall : ∀ vb ∈ vbs, wfOid vb.1 = true ∧ wfObj vb.2 = true) :
    wfList (vbs.map varBindObj) = true := by
  induction vbs with
  | nil => rfl
  | cons vb vbs ih =>
    simp only [List.map_cons, wfList, Bool.and_eq_true]
    obtain ⟨h1, h2⟩ := hall vb (by simp)
    refine ⟨?_, ih (fun x hx => hall x (by simp [hx]))⟩
    simp only [varBindObj, wfObj, wfList, Bool.and_eq_true, Bool.or_eq_true,
      decide_eq_true_eq]
    exact ⟨⟨Or.inl trivial, by simp⟩, h1, h2, trivial⟩

theorem wfObj_varBindListObj (vbs : List (List Nat × Obj)) (hlen : vbs.length ≤ 6)
    (hall : ∀ vb ∈ vbs, wfOid vb.1 = true ∧ wfObj vb.2 = true) :
    wfObj (varBindListObj vbs) = true := by
  simp only [varBindListObj, wfObj, Bool.and_eq_true, Bool.or_eq_true, decide_eq_true_eq]
  exact ⟨⟨Or.inl trivial, by simpa using hlen⟩, wfList_map_varBind vbs hall⟩

theorem parseMessage_decode (fuel : Nat) (bytes r1 r2 r3 : List Nat) (ty : Ty)
    (L acc : Nat) (children : List Obj)
    (h1 : tyDecode bytes = some (ty, r1))
    (h2 : lengthDecode r1 = some (⟨L, 1⟩, r2))
    (hL : L ≠ 0)
    (h3 : decodeChildren fuel L 0 r2 = some (children, acc, r3)) :
    parseMessage fuel bytes = parseFields children := by
  simp only [parseMessage, h1, Option.bind_eq_bind, Option.some_bind, h2, if_neg hL, h3]

theorem parse_build_aux (m : Msg) (now fuel : Nat)
    (hwf : wfMsg m = true) (hnow : now < 4294967296)
    (hsm : objLength (buildObj m now) ≤ 127)
    (hfuel : fuelObj (buildObj m now) ≤ fuel) :
    parseMessage fuel (buildBytes m now) = some (expectedParsed m now) := by
  have hw := hwf
  simp only [wfMsg, Bool.and_eq_true, decide_eq_true_eq, List.all_eq_true] at hw
  obtain ⟨⟨⟨⟨hver, hlo, hhi⟩, hpdu⟩, hvlen⟩, hvall⟩ := hw
  have htmod : m.type % 256 = m.type := Nat.mod_eq_of_lt (by omega)
  have hvermod : m.version % 256 = m.version := Nat.mod_eq_of_lt (by omega)
  have hwfvbl : wfObj (varBindListObj m.varBindList) = true :=
    wfObj_varBindListObj _ hvlen hvall
  have hwfpdu : wfObj (buildPdu m now) = true := by
    by_cases h4 : m.type = 0xA4
    · simp only [if_pos h4, Bool.and_eq_true, decide_eq_true_eq] at hpdu
      obtain ⟨⟨⟨hoid, haddr⟩, hgen⟩, hspec⟩ := hpdu
      simp only [buildPdu, if_pos h4, wfObj, wfList, Bool.and_eq_true, Bool.or_eq_true,
        decide_eq_true_eq, hoid, haddr, hwfvbl]
      refine ⟨⟨Or.inr ⟨hlo, hhi⟩, by simp⟩, trivial, trivial, by omega, by omega, by omega,
        ⟨⟨Or.inl trivial, by simpa using hvlen⟩, wfList_map_varBind _ hvall⟩, trivial⟩
    · by_cases h5 : m.type = 0xA5
      · simp only [if_neg h4, if_pos h5, Bool.and_eq_true, decide_eq_true_eq] at hpdu
        obtain ⟨⟨hrid, hnr⟩, hmr⟩ := hpdu
        simp only [buildPdu, if_neg h4, if_pos h5, wfObj, wfList, Bool.and_eq_true,
          Bool.or_eq_true, decide_eq_true_eq, hwfvbl]
        refine ⟨⟨Or.inr ⟨hlo, hhi⟩, by simp⟩, by omega, by omega, by omega,
          ⟨⟨Or.inl trivial, by simpa using hvlen⟩, wfList_map_varBind _ hvall⟩, trivial⟩
      · simp only [if_neg h4, if_neg h5, Bool.and_eq_true, decide_eq_true_eq] at hpdu
        obtain ⟨⟨hrid, hes⟩, hei⟩ := hpdu
        simp only [buildPdu, if_neg h4, if_neg h5, wfObj, wfList, Bool.and_eq_true,
          Bool.or_eq_true, decide_eq_true_eq, hwfvbl]
        refine ⟨⟨Or.inr ⟨hlo, hhi⟩, by simp⟩, by omega, by omega, by omega,
          ⟨⟨Or.inl trivial, by simpa using hvlen⟩, wfList_map_varBind _ hvall⟩, trivial⟩
  have hwfl : wfList [Obj.integer m.version, Obj.octetString m.community,
      buildPdu m now] = true := by
    simp only [wfList, wfObj, Bool.and_eq_true, decide_eq_true_eq, hwfpdu]
    exact ⟨by omega, trivial, trivial, trivial⟩
  have hsmL : objListLength [Obj.integer m.version, Obj.octetString m.community,
      buildPdu m now] ≤ 127 := hsm
  have hfl : fuelList [Obj.integer m.version, Obj.octetString m.community,
      buildPdu m now] ≤ fuel := by
    have h2 : fuelObj (buildObj m now) = 2 + fuelList [Obj.integer m.version,
      Obj.octetString m.community, buildPdu m now] := rfl
    omega
  have hch := (RT_all fuel).2.2.1
    [Obj.integer m.version, Obj.octetString m.community, buildPdu m now] 0 []
    (by simp) hwfl hsmL (by simp) hfl
  rw [List.append_nil] at hch
  have hL0 : objListLength [Obj.integer m.version, Obj.octetString m.community,
      buildPdu m now] ≠ 0 := by
    rw [objListLength_cons]
    have := objSize_ge_two (Obj.integer m.version)
    omega
  have hbytes : buildBytes m now =
      tyEncode (setType 0x30) ++
        (lengthEncode (setLength (objListLength [Obj.integer m.version,
          Obj.octetString m.community, buildPdu m now])) ++
          objEncodeList [Obj.integer m.version, Obj.octetString m.community,
            buildPdu m now]) := by
    rw [show buildBytes m now = objEncode (Obj.seq 0x30 [Obj.integer m.version,
        Obj.octetString m.community, buildPdu m now]) from rfl]
    rw [show objEncode (Obj.seq 0x30 [Obj.integer m.version, Obj.octetString m.community,
        buildPdu m now]) = tyEncode (setType 0x30) ++
          lengthEncode (setLength (objListLength [Obj.integer m.version,
            Obj.octetString m.community, buildPdu m now])) ++
          objEncodeList [Obj.integer m.version, Obj.octetString m.community,
            buildPdu m now] from rfl, List.append_assoc]
  have h1 : tyDecode (buildBytes m now) =
      some (⟨0x30 &&& 0xC0, 0x30 &&& 0x20, 0x30 &&& 0x1F, 1, 0x30⟩,
        lengthEncode (setLength (objListLength [Obj.integer m.version,
          Obj.octetString m.community, buildPdu m now])) ++
          objEncodeList [Obj.integer m.version, Obj.octetString m.community,
            buildPdu m now]) := by
    rw [hbytes]
    exact tyDecode_encode_byte 0x30 (by decide) (by decide) _
  have h2 : lengthDecode
      (lengthEncode (setLength (objListLength [Obj.integer m.version,
        Obj.octetString m.community, buildPdu m now])) ++
        objEncodeList [Obj.integer m.version, Obj.octetString m.community,
          buildPdu m now]) =
      some (⟨objListLength [Obj.integer m.version, Obj.octetString m.community,
        buildPdu m now], 1⟩,
        objEncodeList [Obj.integer m.version, Obj.octetString m.community,
          buildPdu m now]) := by
    rw [lengthEncode_short _ hsmL, List.singleton_append]
    exact lengthDecode_short _ hsmL _
  rw [parseMessage_decode fuel (buildBytes m now) _ _ [] _ _ _ _ h1 h2 hL0 hch]
  simp only [parseFields, List.getElem?_cons_zero, List.getElem?_cons_succ,
    Option.bind_eq_bind, Option.some_bind, asInteger, asOctetString, htmod, hvermod]
  by_cases h4 : m.type = 0xA4
  · simp only [if_pos h4, Bool.and_eq_true, decide_eq_true_eq] at hpdu
    obtain ⟨⟨⟨hoid, haddr⟩, hgen⟩, hspec⟩ := hpdu
    simp only [buildPdu, if_pos h4, asSeq, Option.some_bind, Option.bind_some,
      Option.pure_def, Option.bind_eq_bind, htmod,
      List.getElem?_cons_zero, List.getElem?_cons_succ, asOid, asIPAddress, asInteger,
      asTimeTicks, varBindListObj,
      Nat.mod_eq_of_lt (show m.trapGenericTrap < 256 from hgen),
      Nat.mod_eq_of_lt (show m.trapSpecificTrap < 256 from hspec)]
    rw [show List.mapM parseVarBind (m.varBindList.map varBindObj) =
      some m.varBindList from mapM_parseVarBind m.varBindList]
    simp only [expectedParsed, if_pos h4]
    rfl
  · by_cases h5 : m.type = 0xA5
    · simp only [if_neg h4, if_pos h5, Bool.and_eq_true, decide_eq_true_eq] at hpdu
      obtain ⟨⟨hrid, hnr⟩, hmr⟩ := hpdu
      simp only [buildPdu, if_neg h4, if_pos h5, asSeq, Option.some_bind, Option.bind_some,
        Option.pure_def, Option.bind_eq_bind, htmod,
        List.getElem?_cons_zero, List.getElem?_cons_succ, asInteger, varBindListObj,
        Nat.mod_eq_of_lt (show m.nonRepeaters < 256 from hnr),
        Nat.mod_eq_of_lt (show m.maxRepetitions < 256 from hmr)]
      rw [show List.mapM parseVarBind (m.varBindList.map varBindObj) =
        some m.varBindList from mapM_parseVarBind m.varBindList]
      simp only [expectedParsed, if_neg h4, if_pos h5]
      rfl
    · simp only [if_neg h4, if_neg h5, Bool.and_eq_true, decide_eq_true_eq] at hpdu
      obtain ⟨⟨hrid, hes⟩, hei⟩ := hpdu
      simp only [buildPdu, if_neg h4, if_neg h5, asSeq, Option.some_bind, Option.bind_some,
        Option.pure_def, Option.bind_eq_bind, htmod,
        List.getElem?_cons_zero, List.getElem?_cons_succ, asInteger, varBindListObj,
        Nat.mod_eq_of_lt (show m.errorStatus < 256 from hes),
        Nat.mod_eq_of_lt (show m.errorIndex < 256 from hei)]
      rw [show List.mapM parseVarBind (m.varBindList.map varBindObj) =
        some m.varBindList from mapM_parseVarBind m.varBindList]
      simp only [expectedParsed, if_neg h4, if_neg h5]
      rfl

/-- The trap message of the C1 counterexample: stored `_timeStamp` 0. -/
def c1TrapMsg : Msg :=
  { version := 0, community := [0x70, 0x75], type := 0xA4, requestID := 0,
    errorStatus := 0, errorIndex := 0, nonRepeaters := 0, maxRepetitions := 0,
    trapEnterprise := [1, 3, 6, 1, 4, 1], trapAgentAddr := [192, 168, 1, 10],
    trapGenericTrap := 6, trapSpecificTrap := 1, trapTimeStamp := 0,
    varBindList := [] }

/-- Timestamp of a parsed trap PDU. -/
def parsedTrapTimeStamp (p : Option Parsed) : Option Nat :=
  match p with
  | some q =>
      match q.pdu with
      | .trap _ _ _ _ ts => some ts
      | _ => none
  | none => none

/-- C1 (counterexample): parsing the bytes built from a Trap message whose
stored `_timeStamp` is 0 yields the timestamp 1234 — the `millis() / 10`
clock value at build time — because `Message::build` writes
`TimeTicksBER(millis() / 10)` and ignores `_timeStamp`; so the parsed
message does not equal the built one field-for-field, refuting the claim as
stated. -/
theorem trapTimestamp_counterexample :
    parsedTrapTimeStamp (parseMessage 40 (buildBytes c1TrapMsg 1234)) = some 1234 ∧
      c1TrapMsg.trapTimeStamp = 0 := by
  constructor
  · rfl
  · rfl

/-- C1 (amended): for every well-formed Message (fields within their C++
types, PDU type in the decoder's accepted range 0xA0–0xA8, VarBind list
within the capacity-6 array) whose built encoding keeps every length in the
single-byte short form (`objLength ≤ 127` — beyond that `Length::encode`
emits malformed long-form lengths, see C2/C3), parsing the built bytes
succeeds and returns every stored field — version, community, type,
request-id / error / bulk fields, trap enterprise, agent address, generic
and specific trap codes, and the (name, value) VarBind pairs in order —
with one exception: the trap timestamp comes back as the build-time clock
value `millis() / 10`, not the stored `_timeStamp`. -/
theorem message_build_parse_roundtrip (m : Msg) (now fuel : Nat)
    (hwf : wfMsg m = true) (hnow : now < 4294967296)
    (hsm : objLength (buildObj m now) ≤ 127)
    (hfuel : fuelObj (buildObj m now) ≤ fuel) :
    parseMessage fuel (buildBytes m now) = some (expectedParsed m now) :=
  parse_build_aux m now fuel hwf hnow hsm hfuel

/-- The bulk message of the C1 witness. -/
def c1BulkMsg : Msg :=
  { version := 1, community := [99, 111], type := 0xA5, requestID := 77,
    errorStatus := 0, errorIndex := 0, nonRepeaters := 1, maxRepetitions := 10,
    trapEnterprise := [], trapAgentAddr := [], trapGenericTrap := 0,
    trapSpecificTrap := 0, trapTimeStamp := 0,
    varBindList := [([1, 3, 6, 1], Obj.nullTag 5)] }

/-- C1 witness: the amended round-trip at a concrete GetBulkRequest. -/
theorem message_build_parse_roundtrip_witness :
    wfMsg c1BulkMsg = true ∧ (5 : Nat) < 4294967296 ∧
      objLength (buildObj c1BulkMsg 5) ≤ 127 ∧ fuelObj (buildObj c1BulkMsg 5) ≤ 40 ∧
      parseMessage 40 (buildBytes c1BulkMsg 5) = some (expectedParsed c1BulkMsg 5) :=
  ⟨by decide, by decide, by decide, by decide,
    message_build_parse_roundtrip c1BulkMsg 5 40 (by decide) (by decide) (by decide)
      (by decide)⟩
